import Mathlib

/-!
Verification of the dayone-to-obsidian converter.

This file gives a shallow embedding of the entry-transformation engine of
the converter (`utils.py`, driven by the loop in the CLI module) and proves,
or refutes, the frozen specification claims about it.

Modelling conventions:
* Python strings are `List Char` (one element per Unicode code point).
* Python `dict`s are association lists in insertion order; assignment of a
  fresh key appends at the end, `pop`/`del` remove the unique occurrence.
* Python exceptions (`KeyError` on a missing field, `IndexError` inside
  `capwords` on an empty word) are modelled with `Option`: `none` means the
  corresponding Python code raises.
* Python `set` iteration order is unspecified; we fix the order of first
  occurrence in the source list.  Claims settled here either do not depend
  on the iteration order or involve singleton sets.
* Timestamps: `dateutil.parser.isoparse(entry["creationDate"])` is modelled
  as an already-parsed count of seconds since the epoch (DayOne exports use
  UTC "Z" timestamps), and the `pytz` timezone of the entry as its UTC
  offset in seconds at that instant.  Calendar conversion uses the standard
  civil-from-days algorithm, proleptic Gregorian, which is what the Python
  datetime library implements.
* Floating point values (GPS coordinates, rounded weather numbers) never
  influence control flow in the code; they are carried as their textual
  rendering.
* Filesystem effects (attachment renames, folder creation) do not feed back
  into the text transformation and are not modelled.
-/

namespace DayOne

/-- A Python string: a list of Unicode code points. -/
abbrev Str := List Char

/-- Shorthand to turn a Lean string literal into our string model. -/
def lit (s : String) : Str := s.data

/-- The apostrophe code point (U+0027). -/
def sq : Char := Char.ofNat 39

/-- Exception-propagating map: a Python for-loop that builds a list and can
raise on any element. -/
def omap {α β : Type} (f : α → Option β) : List α → Option (List β)
  | [] => some []
  | x :: xs => do
    let y ← f x
    let ys ← omap f xs
    pure (y :: ys)

/-- Python `sep.join(parts)`. -/
def joinSep (sep : Str) : List Str → Str
  | [] => []
  | [x] => x
  | x :: y :: xs => x ++ sep ++ joinSep sep (y :: xs)

/-- Python `s.replace(old, new)` for a single-character `old`. -/
def replAll (old : Char) (new : Str) (s : Str) : Str :=
  s.flatMap (fun c => if c = old then new else [c])

/-- Python `string.split(" ")`: split on every single space, keeping empty
words; the split of the empty string is `[""]`. -/
def splitSp : Str → List Str
  | [] => [[]]
  | c :: rest =>
    if c = ' ' then [] :: splitSp rest
    else
      match splitSp rest with
      | [] => [[c]]
      | w :: ws => (c :: w) :: ws

/-- One word of `capwords` — Python `word[0].upper() + word[1:].lower()`;
`none` models the `IndexError` Python raises on an empty word. -/
def capword : Str → Option Str
  | [] => none
  | c :: rest => some (c.toUpper :: rest.map Char.toLower)

/-- `utils.capwords` (utils.py:73-75) with the default empty separator:
capitalize the first letter of each space-delimited word, lowercase the
rest, and join the words with no separator. -/
def capwords (s : Str) : Option Str :=
  (omap capword (splitSp s)).map List.flatten

/-- Duplicate removal keeping first occurrences, with an accumulator of the
elements already seen. -/
def pydedupGo (seen : List Str) : List Str → List Str
  | [] => []
  | x :: xs => if x ∈ seen then pydedupGo seen xs else x :: pydedupGo (x :: seen) xs

/-- Python `set(l)` fixed to first-occurrence order (set iteration order is
unspecified in Python; no claim proved here depends on the choice). -/
def pydedup (l : List Str) : List Str := pydedupGo [] l

/-- A metadata value: either a Python `str`, or a non-string value carried
as the text an f-string renders it to (used for the GPS coordinate list). -/
inductive MVal where
  | s (v : Str)
  | raw (v : Str)
deriving DecidableEq

/-- The text `str.format` interpolates for a metadata value. -/
def showMVal : MVal → Str
  | .s v => v
  | .raw v => v

/-- Remove the (unique) binding of key `k` from an insertion-ordered dict. -/
def eraseKey {α : Type} (k : Str) : List (Str × α) → List (Str × α)
  | [] => []
  | kv :: rest => if kv.1 = k then rest else kv :: eraseKey k rest

/-- The journal-name tag (utils.py:142-144): present when a journal name is
supplied. -/
def journalTagPart (journal_name : Option Str) : Option (List Str) :=
  match journal_name with
  | some jn => (capwords (lit "#journal/" ++ jn)).map (fun t => [t])
  | none => some []

/-- The regular and status tags of one entry (utils.py:146-157): the entry
tag set minus the ignore set minus the status set, each prefixed and
word-capitalized, and the intersection of the full entry tag set with the
status set rendered under `#status/`. -/
def entryTagParts (tag_pfx : Str) (ignore_tags status_tags : List Str)
    (entryTags : Option (List Str)) : Option (List Str × List Str) :=
  match entryTags with
  | none => some ([], [])
  | some ts =>
    (omap (fun t => capwords (tag_pfx ++ t))
        (((pydedup ts).filter (fun t => decide (t ∉ ignore_tags))).filter
          (fun t => decide (t ∉ status_tags)))).bind (fun rp =>
    (omap (fun t => capwords (lit "#status/" ++ t))
        ((pydedup ts).filter (fun t => decide (t ∈ status_tags)))).bind (fun sp =>
    some (rp, sp)))

/-- The derived places tag (utils.py:159-161): built from the location list
reversed without its first element, when the location list is nonempty. -/
def placesTagPart (loc : List Str) : Option (List Str) :=
  match loc with
  | [] => some []
  | _ :: _ =>
    (omap (fun s => capwords (replAll sq (lit "-") s)) (loc.drop 1).reverse).map
      (fun ws => [lit "#places/" ++ joinSep (lit "/") ws])

/-- The tag-building section of `retrieve_metadata` (utils.py:139-173):
journal tag, regular tags, status tags, the derived places tag, the star
tag for a starred entry, then the extra tags verbatim. -/
def processTags (journal_name : Option Str) (tag_pfx : Str)
    (ignore_tags status_tags : List Str) (extra_tags : Option (List Str))
    (entryTags : Option (List Str)) (loc : List Str) (starred : Bool) :
    Option (List Str) :=
  (journalTagPart journal_name).bind (fun jp =>
  (entryTagParts tag_pfx ignore_tags status_tags entryTags).bind (fun rsp =>
  (placesTagPart loc).bind (fun pp =>
  some (jp ++ rsp.1 ++ rsp.2 ++ pp ++
    (if starred then [lit "#⭐"] else []) ++ extra_tags.getD []))))

/-- The `location` sub-record of a raw entry.  Latitude/longitude are
floats in the source; they are carried as their textual rendering. -/
structure LocationRec where
  placeName : Option Str := none
  localityName : Option Str := none
  administrativeArea : Option Str := none
  country : Option Str := none
  latitude : Option Str := none
  longitude : Option Str := none
deriving DecidableEq

/-- The `weather` sub-record.  The two numbers are carried as the text
`round(x, 1)` renders to. -/
structure WeatherRec where
  weatherCode : Option Str := none
  temperatureCelsius : Option Str := none
  windSpeedKPH : Option Str := none
deriving DecidableEq

/-- One record of `entry["photos"]`; `ptype` models `photo["type"]`, which
can be missing (skipped with a warning). -/
structure PhotoRec where
  identifier : Str := []
  md5 : Str := []
  ptype : Option Str := none
deriving DecidableEq

/-- One record of `entry["pdfAttachments"]`. -/
structure PdfRec where
  identifier : Str := []
  md5 : Str := []
deriving DecidableEq

/-- One record of `entry["audios"]`. -/
structure AudioRec where
  identifier : Str := []
  md5 : Str := []
deriving DecidableEq

/-- One record of `entry["videos"]`; `vtype` models `video["type"]`, read
unconditionally. -/
structure VideoRec where
  identifier : Str := []
  md5 : Str := []
  vtype : Str := []
deriving DecidableEq

/-- A raw entry record from the source JSON.  `none` in `uuid` or `starred`
means the field is missing, which makes the corresponding subscript raise
`KeyError`.  `creation` is the parsed creation instant in seconds since the
epoch (DayOne timestamps are UTC), `tzOffset` the UTC offset in seconds of
the entry's own recorded timezone at that instant. -/
structure RawEntry where
  uuid : Option Str := none
  creation : Int := 0
  tzOffset : Int := 0
  location : Option LocationRec := none
  weather : Option WeatherRec := none
  tags : Option (List Str) := none
  starred : Option Bool := none
  text : Option Str := none
  photos : Option (List PhotoRec) := none
  pdfAttachments : Option (List PdfRec) := none
  audios : Option (List AudioRec) := none
  videos : Option (List VideoRec) := none
deriving DecidableEq

/-- The `location` list of utils.py:98-120: the four sub-fields in fixed
precedence, with missing and falsy (empty) values dropped; a missing
location record is caught and yields the empty list. -/
def locationList (e : RawEntry) : List Str :=
  match e.location with
  | none => []
  | some l =>
    ([l.placeName, l.localityName, l.administrativeArea, l.country].filterMap id).filter
      (fun s => decide (s ≠ []))

/-- A local calendar date and time, as produced by
`creation_date.astimezone(pytz.timezone(entry["timeZone"]))`. -/
structure LocalDT where
  year : Int
  month : Nat
  day : Nat
  hour : Nat
  minute : Nat
  second : Nat
deriving DecidableEq

/-- Decimal digits of a natural number. -/
def digitsOf (n : Nat) : Str := Nat.toDigits 10 n

/-- Python `str(i)` for an integer. -/
def intStr (i : Int) : Str :=
  if i < 0 then '-' :: digitsOf (-i).toNat else digitsOf i.toNat

/-- strftime zero-padded two-digit field. -/
def pad2 (n : Nat) : Str := if n < 10 then '0' :: digitsOf n else digitsOf n

/-- strftime `%Y-%m-%d`. -/
def dtDate (d : LocalDT) : Str :=
  intStr d.year ++ lit "-" ++ pad2 d.month ++ lit "-" ++ pad2 d.day

/-- strftime `%Y-%m-%d %H:%M:%S`. -/
def dtFull (d : LocalDT) : Str :=
  dtDate d ++ lit " " ++ pad2 d.hour ++ lit ":" ++ pad2 d.minute ++ lit ":" ++ pad2 d.second

/-- Proleptic-Gregorian civil date from a count of days since 1970-01-01
(the standard civil-from-days algorithm used by datetime libraries). -/
def civilFromDays (z : Int) : Int × Nat × Nat :=
  let z' := z + 719468
  let era := z'.fdiv 146097
  let doe := (z' - era * 146097).toNat
  let yoe := (doe - doe / 1460 + doe / 36524 - doe / 146096) / 365
  let y : Int := (yoe : Int) + era * 400
  let doy := doe - (365 * yoe + yoe / 4 - yoe / 100)
  let mp := (5 * doy + 2) / 153
  let d := doy - (153 * mp + 2) / 5 + 1
  let m := if mp < 10 then mp + 3 else mp - 9
  (if m ≤ 2 then y + 1 else y, m, d)

/-- The calendar fields of an instant `z` (seconds since epoch) displayed at
UTC offset `off` — the model of `datetime.astimezone`. -/
def dtOfEpoch (z off : Int) : LocalDT :=
  let t := z + off
  let day := t.fdiv 86400
  let secs := (t - day * 86400).toNat
  let c := civilFromDays day
  { year := c.1, month := c.2.1, day := c.2.2,
    hour := secs / 3600, minute := secs % 3600 / 60, second := secs % 60 }

/-- `retrieve_metadata` (utils.py:79-175): the ordered attribute mapping of
one entry.  `none` models the uncaught `KeyError` on a missing `uuid` or
`starred` field (and the `IndexError` `capwords` raises on an empty word). -/
def retrieve_metadata (entry : RawEntry) (local_date : LocalDT) (tag_pfx : Str)
    (ignore_tags status_tags : List Str) (extra_tags : Option (List Str))
    (journal_name : Option Str) : Option (List (Str × MVal)) := do
  let uuid ← entry.uuid
  let loc := locationList entry
  let gps : List (Str × MVal) :=
    match entry.location with
    | some l =>
      match l.latitude, l.longitude with
      | some la, some lo =>
        [(lit "location", MVal.raw (lit "[" ++ la ++ lit ", " ++ lo ++ lit "]"))]
      | _, _ => []
    | none => []
  let wx : List (Str × MVal) :=
    match entry.weather with
    | some w =>
      match w.weatherCode, w.temperatureCelsius, w.windSpeedKPH with
      | some c, some t, some v =>
        [(lit "weather", MVal.s (c ++ lit ", " ++ t ++ lit "°C, " ++ v ++ lit " km/h wind"))]
      | _, _, _ => []
    | none => []
  let starred ← entry.starred
  let tl ← processTags journal_name tag_pfx ignore_tags status_tags extra_tags
    entry.tags loc starred
  pure ([(lit "uuid", MVal.s uuid), (lit "dates", MVal.s (dtFull local_date)),
         (lit "places", MVal.s (joinSep (lit ", ") loc))] ++ gps ++ wx ++
        (if tl.isEmpty then [] else [(lit "tags", MVal.s (joinSep (lit ", ") tl))]))

/-- The core mutable unit (`Entry` in utils.py:19-47).  The output file is
tracked separately through the placement state. -/
structure Entry where
  uuid : Option Str := none
  has_yaml : Bool := false
  yaml : Str := []
  metadata : List (Str × MVal) := []
  text : Str := []
deriving DecidableEq

/-- YAML front-matter quoting of a textual value:
`"'" + value.replace("'", "''") + "'"`. -/
def yamlQuote (v : Str) : Str := sq :: (replAll sq [sq, sq] v ++ [sq])

/-- Front-matter rendering of a metadata value (textual values quoted,
other values interpolated as they are). -/
def yamlMVal : MVal → Str
  | .s v => yamlQuote v
  | .raw v => v

/-- Front-matter rendering of a key: `name.lower().replace(' ', '_')`. -/
def yamlKey (k : Str) : Str := replAll ' ' (lit "_") (k.map Char.toLower)

/-- `Entry.__str__` (utils.py:30-47).  With front-matter: the YAML block
followed by the body.  Without: one `key:: value` line per attribute, a
blank line, the body.  Both end with a final newline.  The `uuid` keyword
argument passed to `str.format` is unused by the template, so it does not
appear in the output. -/
def Entry.render (e : Entry) : Str :=
  if e.has_yaml then
    lit "---\n" ++
      joinSep (lit "\n")
        (e.metadata.map (fun kv => yamlKey kv.1 ++ lit ": " ++ yamlMVal kv.2)) ++
      lit "\n---\n\n" ++ e.text ++ lit "\n"
  else
    e.yaml ++
      joinSep (lit "\n")
        (e.metadata.map (fun kv => kv.1 ++ lit ":: " ++ showMVal kv.2) ++ [[], []]) ++
      e.text ++ lit "\n"

/-- `Entry.from_metadata` (utils.py:49-63): pop the identifier out of the
metadata and, when present, add the DayOne URL attribute at the end. -/
def Entry.from_metadata (metadata : List (Str × MVal)) (yaml : Bool) : Entry :=
  let uuid := match List.lookup (lit "uuid") metadata with
    | some (MVal.s u) => some u
    | _ => none
  let md := eraseKey (lit "uuid") metadata
  match uuid with
  | none => { uuid := none, has_yaml := yaml, metadata := md }
  | some u =>
    let url := lit "dayone://view?entryId=" ++ u
    { uuid := some u, has_yaml := yaml,
      metadata := md ++
        [(lit "url", MVal.s (if yaml then url else lit "[DayOne](" ++ url ++ lit ")"))] }

/-- Python's regex `\s` class over `str` patterns (Unicode whitespace). -/
def isPySpace (c : Char) : Bool :=
  c == ' ' || c == '\t' || c == '\n' || c == '\r' ||
  c.toNat == 0x0B || c.toNat == 0x0C ||
  (0x1C ≤ c.toNat && c.toNat ≤ 0x1F) || c.toNat == 0x85 || c.toNat == 0xA0 ||
  c.toNat == 0x1680 || (0x2000 ≤ c.toNat && c.toNat ≤ 0x200A) ||
  c.toNat == 0x2028 || c.toNat == 0x2029 || c.toNat == 0x202F || c.toNat == 0x205F ||
  c.toNat == 0x3000

/-- After at least one whitespace character has been seen: skip further
whitespace until a closing triple backtick; `none` when a non-whitespace
character or the end of input intervenes (the regex `` ```\s+``` `` then
fails at this position). -/
def wsGo : (s : Str) → Option { t : Str // t.length ≤ s.length }
  | '`' :: '`' :: '`' :: tail =>
    some ⟨tail, by simp only [List.length_cons]; omega⟩
  | c :: rest =>
    if isPySpace c then
      match wsGo rest with
      | some ⟨t, h⟩ => some ⟨t, Nat.le_succ_of_le h⟩
      | none => none
    else none
  | [] => none

/-- Match `\s+` followed by a closing triple backtick, returning the tail
after the close. -/
def emptyBlockTail : (s : Str) → Option { t : Str // t.length ≤ s.length }
  | [] => none
  | c :: rest =>
    if isPySpace c then
      match wsGo rest with
      | some ⟨t, h⟩ => some ⟨t, Nat.le_succ_of_le h⟩
      | none => none
    else none

/-- `re.sub(r"```\s+```", "", text)` (utils.py:278): collapse an empty
fenced code block artifact to nothing, leftmost matches first. -/
def collapseEmptyCode : Str → Str
  | '`' :: '`' :: '`' :: rest =>
    match emptyBlockTail rest with
    | some ⟨tail, _⟩ => collapseEmptyCode tail
    | none => '`' :: collapseEmptyCode ('`' :: '`' :: rest)
  | c :: rest => c :: collapseEmptyCode rest
  | [] => []
termination_by s => s.length
decreasing_by all_goals simp_all only [List.length_cons]; omega

/-- The text tidy-up of utils.py:269-278, in source order: strip literal
backslashes, replace U+2028 with a newline, replace U+1C6A with a double
newline, strip U+200B, then collapse empty fenced code blocks.  Note the
code really names U+1C6A here, not the paragraph separator U+2029. -/
def tidyText (s : Str) : Str :=
  collapseEmptyCode
    (replAll (Char.ofNat 0x200B) []
      (replAll (Char.ofNat 0x1C6A) (lit "\n\n")
        (replAll (Char.ofNat 0x2028) (lit "\n")
          (replAll '\\' [] s))))

/-- The regex class `[A-F0-9]`. -/
def isHex (c : Char) : Bool := ('A' ≤ c && c ≤ 'F') || ('0' ≤ c && c ≤ '9')

/-- Greedy span of a character class, keeping the length bound of the rest. -/
def spanSub (p : Char → Bool) : (s : Str) → Str × { t : Str // t.length ≤ s.length }
  | [] => ([], ⟨[], Nat.le_refl _⟩)
  | c :: rest =>
    if p c then
      let r := spanSub p rest
      (c :: r.1, ⟨r.2.1, Nat.le_succ_of_le r.2.2⟩)
    else ([], ⟨c :: rest, Nat.le_refl _⟩)

/-- Match `([A-F0-9]+)\)`: a nonempty maximal hex run directly followed by a
closing parenthesis (shorter runs cannot succeed, since the character after
a shorter run is a hex character and not `)`). -/
def hexClose (s : Str) : Option (Str × { t : Str // t.length ≤ s.length }) :=
  match spanSub isHex s with
  | (run, rest) =>
    match run, rest.val, rest.property with
    | _ :: _, c :: tail, hp =>
      if c = ')' then
        some (run, ⟨tail, le_trans (Nat.le_succ _) hp⟩)
      else none
    | _, _, _ => none

/-- Match a literal character sequence, returning the rest. -/
def expectLit : (p s : Str) → Option { t : Str // t.length ≤ s.length }
  | [], s => some ⟨s, Nat.le_refl _⟩
  | _ :: _, [] => none
  | c :: p, d :: s =>
    if c = d then
      match expectLit p s with
      | some ⟨t, h⟩ => some ⟨t, Nat.le_succ_of_le h⟩
      | none => none
    else none

/-- The four attachment substitution patterns of utils.py (photos 307-311,
PDFs 327-331, audios 353-357, videos 377-381). -/
inductive AKind where
  | photo
  | pdf
  | audio
  | video
deriving DecidableEq

/-- The kind path of the attachment reference: photos use the bare
`dayone-moment://` scheme, the others `dayone-moment:` followed by one or
more slashes and a kind segment. -/
def kindPath : AKind → Option Str
  | .photo => none
  | .pdf => some (lit "pdfAttachment")
  | .audio => some (lit "audio")
  | .video => some (lit "video")

/-- Attempt one attachment-reference match directly after a `!`:
`[](dayone-moment:` then (for photos) `//` or (for the other kinds) one or
more slashes and the kind segment, then a hex identifier and `)`.  Returns
the captured identifier and the tail after the match. -/
def tryMoment (k : AKind) (s : Str) : Option (Str × { t : Str // t.length ≤ s.length }) :=
  match expectLit (lit "[](dayone-moment:") s with
  | none => none
  | some ⟨r1, h1⟩ =>
    match kindPath k with
    | none =>
      match expectLit (lit "//") r1 with
      | none => none
      | some ⟨r2, h2⟩ =>
        match hexClose r2 with
        | none => none
        | some (u, ⟨tail, h3⟩) =>
          some (u, ⟨tail, le_trans h3 (le_trans h2 h1)⟩)
    | some kp =>
      match spanSub (fun c => c = '/') r1 with
      | (run, rest) =>
        match run with
        | [] => none
        | _ :: _ =>
          match expectLit (kp ++ lit "/") rest.val with
          | none => none
          | some ⟨r2, h2⟩ =>
            match hexClose r2 with
            | none => none
            | some (u, ⟨tail, h3⟩) =>
              some (u, ⟨tail, le_trans h3 (le_trans h2 (le_trans rest.property h1))⟩)

/-- The replacement text `![[<id>.<ext>]]`. -/
def momentRepl (u ext : Str) : Str := lit "![[" ++ u ++ lit "." ++ ext ++ lit "]]"

/-- One `re.sub` pass rewriting every attachment reference of kind `k` in
the text to an embed with extension `ext` (leftmost matches, scanning
left to right). -/
def reSubMoment (k : AKind) (ext : Str) : Str → Str
  | [] => []
  | '!' :: rest =>
    match tryMoment k rest with
    | some (u, ⟨tail, _⟩) => momentRepl u ext ++ reSubMoment k ext tail
    | none => '!' :: reSubMoment k ext rest
  | c :: rest => c :: reSubMoment k ext rest
termination_by s => s.length
decreasing_by all_goals simp_all only [List.length_cons]; omega

/-- The photo loop (utils.py:282-311): for each photo record, a missing
`type` field skips the iteration (with a warning); otherwise one global
substitution pass runs with that photo's type as the extension. -/
def applyPhotos (photos : Option (List PhotoRec)) (t : Str) : Str :=
  match photos with
  | none => t
  | some ps =>
    ps.foldl
      (fun acc p =>
        match p.ptype with
        | none => acc
        | some ty => reSubMoment AKind.photo ty acc) t

/-- The PDF loop (utils.py:313-331): one substitution pass per record,
always with extension `pdf`. -/
def applyPdfs (pdfs : Option (List PdfRec)) (t : Str) : Str :=
  match pdfs with
  | none => t
  | some ps => ps.foldl (fun acc _ => reSubMoment AKind.pdf (lit "pdf") acc) t

/-- The audio loop (utils.py:333-357): one substitution pass per record,
always with extension `m4a`. -/
def applyAudios (audios : Option (List AudioRec)) (t : Str) : Str :=
  match audios with
  | none => t
  | some ps => ps.foldl (fun acc _ => reSubMoment AKind.audio (lit "m4a") acc) t

/-- The video loop (utils.py:359-381): one substitution pass per record
with that record's `type` as the extension. -/
def applyVideos (videos : Option (List VideoRec)) (t : Str) : Str :=
  match videos with
  | none => t
  | some ps => ps.foldl (fun acc v => reSubMoment AKind.video v.vtype acc) t

/-- All four attachment rewriting loops in source order: photos, PDFs,
audios, videos. -/
def applyAttachments (e : RawEntry) (t : Str) : Str :=
  applyVideos e.videos (applyAudios e.audios (applyPdfs e.pdfAttachments (applyPhotos e.photos t)))

/-- Match the lazy `[^\]]*?\]` part of the internal-link regex: the link
text is everything up to the first `]`. -/
def splitText : (s : Str) → Option (Str × { t : Str // t.length ≤ s.length })
  | [] => none
  | c :: rest =>
    if c = ']' then some ([], ⟨rest, Nat.le_succ_of_le (Nat.le_refl _)⟩)
    else
      match splitText rest with
      | some (w, ⟨t, h⟩) => some (c :: w, ⟨t, Nat.le_succ_of_le h⟩)
      | none => none

/-- The lazy `.*?([A-F0-9]+)\)` part: at each position, first try a hex run
followed by `)`; otherwise consume one character, which must not be a
newline (`.` does not match newlines). -/
def middleScan : (s : Str) → Option (Str × { t : Str // t.length ≤ s.length })
  | [] => none
  | c :: rest =>
    match hexClose (c :: rest) with
    | some (u, ⟨tail, h⟩) => some (u, ⟨tail, h⟩)
    | none =>
      if c = '\n' then none
      else
        match middleScan rest with
        | some (u, ⟨tail, h⟩) => some (u, ⟨tail, Nat.le_succ_of_le h⟩)
        | none => none

/-- Attempt one internal-link match directly after a `[`: the regex
`\[([^\]]*?)\]\(dayone2?:\/\/.*?([A-F0-9]+)\)` of utils.py:490-492. -/
def linkMatch (s : Str) : Option (Str × Str × { t : Str // t.length ≤ s.length }) :=
  match splitText s with
  | none => none
  | some (txt, ⟨r0, h0⟩) =>
    match expectLit (lit "(dayone") r0 with
    | none => none
    | some ⟨r1, h1⟩ =>
      let sch : Option { t : Str // t.length ≤ r1.length } :=
        match expectLit (lit "2://") r1 with
        | some v => some v
        | none => expectLit (lit "://") r1
      match sch with
      | none => none
      | some ⟨r2, h2⟩ =>
        match middleScan r2 with
        | none => none
        | some (u, ⟨tail, h3⟩) =>
          some (txt, u, ⟨tail, le_trans h3 (le_trans h2 (le_trans h1 h0))⟩)

/-- `replace_link` (utils.py:477-483): a known identifier becomes an
Obsidian link to its file, an unknown one a visible footnote marker. -/
def linkRepl (m : List (Str × Str)) (txt u : Str) : Str :=
  match List.lookup u m with
  | some p => lit "[[" ++ p ++ lit "|" ++ txt ++ lit "]]"
  | none => lit "^[Linked entry with UUID `" ++ u ++ lit "` not found]"

/-- The `re.sub` over one entry body in `Journal.convert_dayone_links`
(utils.py:486-492), with `m` the combined identifier-to-path mapping built
in pass 1. -/
def convert_links_text (m : List (Str × Str)) : Str → Str
  | [] => []
  | '[' :: rest =>
    match linkMatch rest with
    | some (txt, u, ⟨tail, _⟩) => linkRepl m txt u ++ convert_links_text m tail
    | none => '[' :: convert_links_text m rest
  | c :: rest => c :: convert_links_text m rest
termination_by s => s.length
decreasing_by all_goals simp_all only [List.length_cons]; omega

/-- An entry that has reached the collision-handling code: its target
filename stem and the `Entry` built so far. -/
structure PendingEntry where
  stem : Str
  entry : Entry
deriving DecidableEq

/-- The per-journal placement state: the insertion-ordered dictionary from
filename stem to entry, and the merge counter. -/
structure PlaceState where
  entries : List (Str × Entry) := []
  merged : Nat := 0
deriving DecidableEq

/-- The suffix search loop of utils.py:422-428: starting at ASCII `a`,
increment while the candidate stem is already taken.  The fuel is one more
than the dictionary size, which the search never exhausts. -/
def findFree (entries : List (Str × Entry)) (stem : Str) : Nat → Nat → Nat
  | 0, i => i
  | fuel + 1, i =>
    if (List.lookup (stem ++ [Char.ofNat i]) entries).isSome then
      findFree entries stem fuel (i + 1)
    else i

/-- A double newline. -/
def nl2 : Str := lit "\n\n"

/-- The same-day collision handling of utils.py:410-432 for one entry:
merge into the occupant (merge-mode on), or find the next free suffixed
stem (merge-mode off), or just place the entry.  Deleting the `dates`
attribute of the absorbed entry is `eraseKey`; `retrieve_metadata` always
creates that attribute, so the Python `del` cannot raise here. -/
def placeStep (merge_entries : Bool) (entries_sep : Str) (st : PlaceState)
    (p : PendingEntry) : PlaceState :=
  match List.lookup p.stem st.entries with
  | some prev =>
    if merge_entries then
      let prev' : Entry := { prev with metadata := eraseKey (lit "dates") prev.metadata }
      let newE : Entry := { p.entry with
        text := p.entry.text ++ nl2 ++ entries_sep ++ nl2 ++ prev'.render }
      { entries := eraseKey p.stem st.entries ++ [(p.stem, newE)], merged := st.merged + 1 }
    else
      let idx := findFree st.entries p.stem (st.entries.length + 1) 97
      { entries := st.entries ++ [(p.stem ++ [Char.ofNat idx], p.entry)],
        merged := st.merged }
  | none => { entries := st.entries ++ [(p.stem, p.entry)], merged := st.merged }

/-- The placement loop over the (non-skipped) entries of one journal, in
source-array order. -/
def placeAll (merge_entries : Bool) (entries_sep : Str) (ps : List PendingEntry) : PlaceState :=
  ps.foldl (placeStep merge_entries entries_sep) {}

/-- Closed form of one merge step: the next entry's body, the separator
framed by blank lines, then the full rendering of the accumulated entry
with its `dates` attribute removed. -/
def mergeCombine (entries_sep : Str) (acc : Entry) (p : PendingEntry) : Entry :=
  { p.entry with text := p.entry.text ++ nl2 ++ entries_sep ++ nl2 ++
      Entry.render { acc with metadata := eraseKey (lit "dates") acc.metadata } }

/-- The suffix the k-th same-stem entry receives under merge-mode off:
none for the first, then `a`, `b`, `c`, … -/
def suffixFor : Nat → Str
  | 0 => []
  | k + 1 => [Char.ofNat (97 + k)]

/-- The names the collision resolver is expected to assign, in input order:
each stem extended by the suffix for the number of its prior occurrences. -/
def expectedNamesGo (processed : List Str) : List Str → List Str
  | [] => []
  | s :: rest => (s ++ suffixFor (processed.count s)) :: expectedNamesGo (processed ++ [s]) rest

/-- Expected assigned names for a full input list of stems. -/
def expectedNames (stems : List Str) : List Str := expectedNamesGo [] stems

/-- The configuration surface reaching the per-entry transformation. -/
structure Config where
  tag_pfx : Str := lit "#on/"
  ignore_tags : List Str := []
  status_tags : List Str := []
  extra_tags : Option (List Str) := none
  journal_name : Option Str := none
  yaml : Bool := false
  merge_entries : Bool := false
  entries_sep : Str := lit "---\n---"
deriving DecidableEq

/-- The per-entry part of `Journal.process_journal` (utils.py:241-394):
metadata extraction, entry construction, text tidy-up and attachment
rewriting; `none` models an uncaught exception from a malformed record. -/
def buildEntry (cfg : Config) (e : RawEntry) : Option PendingEntry := do
  let ld := dtOfEpoch e.creation e.tzOffset
  let md ← retrieve_metadata e ld cfg.tag_pfx cfg.ignore_tags cfg.status_tags
    cfg.extra_tags cfg.journal_name
  let ent := Entry.from_metadata md cfg.yaml
  let ent := match e.text with
    | none => ent
    | some t => { ent with text := applyAttachments e (tidyText t) }
  pure { stem := dtDate ld, entry := ent }

/-- Processing of one journal file: every record is transformed and placed;
an exception from any record aborts the whole file with nothing produced. -/
def processFile (cfg : Config) (raws : List RawEntry) : Option PlaceState :=
  (omap (buildEntry cfg) raws).map (placeAll cfg.merge_entries cfg.entries_sep)

/-- The per-file loop of the CLI `convert` command: journal files are
processed in order and there is no exception handler around the loop, so
an exception raised while processing one file propagates and ends the
whole run — no later file is processed. -/
def runAll (cfg : Config) : List (List RawEntry) → Option (List PlaceState)
  | [] => some []
  | f :: rest =>
    match processFile cfg f with
    | none => none
    | some j => (runAll cfg rest).map (fun js => j :: js)

/-- The output path components assigned in utils.py:385-401: the journal
folder, `str(creation_date.year)`, `creation_date.strftime("%Y-%m")`, and
the filename `local_date.strftime("%Y-%m-%d") + ".md"`.  The directory
components come from the creation instant as recorded (UTC for DayOne
exports), the stem from the entry's own timezone. -/
def outputPathParts (journal_name : Str) (creation tzOff : Int) : List Str :=
  let c := civilFromDays (creation.fdiv 86400)
  let l := dtOfEpoch creation tzOff
  [journal_name, intStr c.1, intStr c.1 ++ lit "-" ++ pad2 c.2.1, dtDate l ++ lit ".md"]

/-- A canonical inline photo reference as DayOne writes it. -/
def photoRef (u : Str) : Str := lit "![](dayone-moment://" ++ u ++ lit ")"

/-- A canonical inline kinded attachment reference (pdfAttachment, audio,
video) as DayOne writes it. -/
def kindRef (kp u : Str) : Str := lit "![](dayone-moment://" ++ kp ++ lit "/" ++ u ++ lit ")"

/-! ### General lemmas about the embedded operations -/
theorem cl_cons_ne (m : List (Str × Str)) (c : Char) (rest : Str) (hc : c ≠ '[') :
    convert_links_text m (c :: rest) = c :: convert_links_text m rest := by
  rw [convert_links_text.eq_def]; split <;> simp_all

theorem cl_nil (m : List (Str × Str)) : convert_links_text m [] = [] := by
  rw [convert_links_text.eq_def]

theorem cl_pass (m : List (Str × Str)) (pre s : Str) (h : '[' ∉ pre) :
    convert_links_text m (pre ++ s) = pre ++ convert_links_text m s := by
  induction pre with
  | nil => simp
  | cons c cs ih =>
    simp only [List.mem_cons, not_or] at h
    rw [List.cons_append, cl_cons_ne _ _ _ (fun hh => h.1 hh.symm), ih h.2]
    rfl

theorem spanSub_all (p : Char → Bool) (u : Str) (d : Char) (r : Str)
    (hu : ∀ c ∈ u, p c = true) (hd : p d = false) :
    spanSub p (u ++ d :: r) = (u, ⟨d :: r, by simp⟩) := by
  induction u with
  | nil => simp [spanSub, hd]
  | cons c cs ih =>
    simp only [List.mem_cons] at hu
    simp [spanSub, hu c (Or.inl rfl), ih (fun x hx => hu x (Or.inr hx))]

theorem expectLit_append (p s : Str) :
    expectLit p (p ++ s) = some ⟨s, by simp⟩ := by
  induction p with
  | nil => simp [expectLit]
  | cons c cs ih => simp [expectLit, ih]

theorem hexClose_run (u r : Str) (hu : u ≠ []) (hhex : ∀ c ∈ u, isHex c = true) :
    hexClose (u ++ ')' :: r) = some (u, ⟨r, by simp; omega⟩) := by
  rw [hexClose, spanSub_all isHex u ')' r hhex (by decide)]
  cases u with
  | nil => exact absurd rfl hu
  | cons c cs => simp

theorem hexClose_runC (c : Char) (cs r : Str) (hhex : ∀ x ∈ c :: cs, isHex x = true) :
    hexClose (c :: (cs ++ ')' :: r)) = some (c :: cs, ⟨r, by simp; omega⟩) := by
  exact hexClose_run (c :: cs) r (by simp) hhex

theorem hexClose_nonhex (c : Char) (s : Str) (hc : isHex c = false) :
    hexClose (c :: s) = none := by
  rw [hexClose]
  have : spanSub isHex (c :: s) = ([], ⟨c :: s, Nat.le_refl _⟩) := by
    simp [spanSub, hc]
  rw [this]

theorem middleScan_hex (c : Char) (cs r : Str) (hhex : ∀ x ∈ c :: cs, isHex x = true) :
    middleScan (c :: (cs ++ ')' :: r)) = some (c :: cs, ⟨r, by simp; omega⟩) := by
  simp only [middleScan]
  rw [hexClose_runC c cs r hhex]

theorem middleScan_gen (M u r : Str) (hM : ∀ c ∈ M, isHex c = false ∧ c ≠ '\n')
    (hu : u ≠ []) (hhex : ∀ c ∈ u, isHex c = true) :
    middleScan (M ++ (u ++ ')' :: r)) = some (u, ⟨r, by simp; omega⟩) := by
  induction M with
  | nil =>
    cases u with
    | nil => exact absurd rfl hu
    | cons c cs => exact middleScan_hex c cs r hhex
  | cons c cs ih =>
    show middleScan (c :: (cs ++ (u ++ ')' :: r))) = _
    simp only [middleScan]
    rw [hexClose_nonhex c _ (hM c (List.mem_cons_self c cs)).1,
      if_neg (hM c (List.mem_cons_self c cs)).2,
      ih (fun x hx => hM x (List.mem_cons_of_mem c hx))]

theorem splitText_canonical (t r : Str) (ht : ']' ∉ t) :
    splitText (t ++ ']' :: r) = some (t, ⟨r, by simp; omega⟩) := by
  induction t with
  | nil => simp [splitText]
  | cons c cs ih =>
    simp only [List.mem_cons, not_or] at ht
    show splitText (c :: (cs ++ ']' :: r)) = _
    simp only [splitText]
    rw [if_neg (fun hh => ht.1 hh.symm), ih ht.2]

theorem expectLit_2fail (X : Str) : expectLit (lit "2://") (lit "://" ++ X) = none := by
  show expectLit ('2' :: lit "://") (':' :: (lit "//" ++ X)) = none
  simp only [expectLit]
  rw [if_neg (by decide)]

theorem linkMatch_canonical (t M u post : Str) (ht : ']' ∉ t)
    (hM : ∀ c ∈ M, isHex c = false ∧ c ≠ '\n') (hu : u ≠ [])
    (hhex : ∀ c ∈ u, isHex c = true) :
    linkMatch (t ++ ']' :: (lit "(dayone" ++ (lit "://" ++ (M ++ (u ++ ')' :: post))))) =
      some (t, u, ⟨post, by simp; omega⟩) := by
  simp only [linkMatch]
  rw [splitText_canonical t _ ht]
  simp only []
  rw [expectLit_append (lit "(dayone") _]
  simp only []
  rw [expectLit_2fail]
  simp only []
  rw [expectLit_append (lit "://") _]
  simp only []
  rw [middleScan_gen M u post hM hu hhex]

theorem cl_bracket (m : List (Str × Str)) (rest : Str) :
    convert_links_text m ('[' :: rest) =
      (match linkMatch rest with
       | some (txt, u, ⟨tail, _⟩) => linkRepl m txt u ++ convert_links_text m tail
       | none => '[' :: convert_links_text m rest) := by
  rw [convert_links_text.eq_def]; rfl

theorem cl_canonical (m : List (Str × Str)) (t M u post : Str) (ht : ']' ∉ t)
    (hM : ∀ c ∈ M, isHex c = false ∧ c ≠ '\n') (hu : u ≠ [])
    (hhex : ∀ c ∈ u, isHex c = true) :
    convert_links_text m
        ('[' :: (t ++ ']' :: (lit "(dayone" ++ (lit "://" ++ (M ++ (u ++ ')' :: post)))))) =
      linkRepl m t u ++ convert_links_text m post := by
  rw [cl_bracket, linkMatch_canonical t M u post ht hM hu hhex]

/-- C4: after link resolution, every inline reference
`[text](dayone://…HEXID)` whose identifier is in the combined
identifier-to-path mapping is replaced by `[[path|text]]`, and every such
reference with an unknown identifier becomes the visible footnote marker
naming the identifier — never dropped silently and never an error. -/
theorem link_resolution_rewrite (m : List (Str × Str)) (pre t M u post : Str)
    (hpre : '[' ∉ pre) (ht : ']' ∉ t)
    (hM : ∀ c ∈ M, isHex c = false ∧ c ≠ '\n') (hu : u ≠ [])
    (hhex : ∀ c ∈ u, isHex c = true) :
    convert_links_text m
        (pre ++ lit "[" ++ t ++ lit "](dayone://" ++ M ++ u ++ lit ")" ++ post) =
      pre ++ (linkRepl m t u ++ convert_links_text m post) ∧
    (∀ p, List.lookup u m = some p →
      linkRepl m t u = lit "[[" ++ p ++ lit "|" ++ t ++ lit "]]") ∧
    (List.lookup u m = none →
      linkRepl m t u = lit "^[Linked entry with UUID `" ++ u ++ lit "` not found]") := by
  refine ⟨?_, ?_, ?_⟩
  · simp only [List.append_assoc]
    rw [cl_pass m pre _ hpre]
    congr 1
    exact cl_canonical m t M u post ht hM hu hhex
  · intro p hp
    simp [linkRepl, hp, List.append_assoc]
  · intro hp
    simp [linkRepl, hp, List.append_assoc]

/-- C4 witness: one resolved and the structure of both replacement branches,
at a concrete body. -/
theorem link_resolution_rewrite_witness :
    convert_links_text [(lit "2AF3D5", lit "admin/2023/2023-01/2023-01-01.md")]
        (lit "x " ++ lit "[" ++ lit "note" ++ lit "](dayone://" ++ lit "view?entryId=" ++
          lit "2AF3D5" ++ lit ")" ++ lit " y") =
      lit "x " ++ (linkRepl [(lit "2AF3D5", lit "admin/2023/2023-01/2023-01-01.md")]
        (lit "note") (lit "2AF3D5") ++
        convert_links_text [(lit "2AF3D5", lit "admin/2023/2023-01/2023-01-01.md")] (lit " y")) ∧
    (∀ p, List.lookup (lit "2AF3D5") [(lit "2AF3D5", lit "admin/2023/2023-01/2023-01-01.md")] =
        some p →
      linkRepl [(lit "2AF3D5", lit "admin/2023/2023-01/2023-01-01.md")] (lit "note")
          (lit "2AF3D5") =
        lit "[[" ++ p ++ lit "|" ++ lit "note" ++ lit "]]") ∧
    (List.lookup (lit "2AF3D5") [(lit "2AF3D5", lit "admin/2023/2023-01/2023-01-01.md")] =
        none →
      linkRepl [(lit "2AF3D5", lit "admin/2023/2023-01/2023-01-01.md")] (lit "note")
          (lit "2AF3D5") =
        lit "^[Linked entry with UUID `" ++ lit "2AF3D5" ++ lit "` not found]") :=
  link_resolution_rewrite [(lit "2AF3D5", lit "admin/2023/2023-01/2023-01-01.md")]
    (lit "x ") (lit "note") (lit "view?entryId=") (lit "2AF3D5") (lit " y")
    (by decide) (by decide) (by decide) (by decide) (by decide)

theorem rs_cons_ne (k : AKind) (ext : Str) (c : Char) (rest : Str) (hc : c ≠ '!') :
    reSubMoment k ext (c :: rest) = c :: reSubMoment k ext rest := by
  rw [reSubMoment.eq_def]; split <;> simp_all

theorem rs_nil (k : AKind) (ext : Str) : reSubMoment k ext [] = [] := by
  rw [reSubMoment.eq_def]

theorem rs_bang (k : AKind) (ext : Str) (rest : Str) :
    reSubMoment k ext ('!' :: rest) =
      (match tryMoment k rest with
       | some (u, ⟨tail, _⟩) => momentRepl u ext ++ reSubMoment k ext tail
       | none => '!' :: reSubMoment k ext rest) := by
  rw [reSubMoment.eq_def]; rfl

theorem rs_pass (k : AKind) (ext : Str) (pre s : Str) (h : '!' ∉ pre) :
    reSubMoment k ext (pre ++ s) = pre ++ reSubMoment k ext s := by
  induction pre with
  | nil => simp
  | cons c cs ih =>
    simp only [List.mem_cons, not_or] at h
    rw [List.cons_append, rs_cons_ne _ _ _ _ (fun hh => h.1 hh.symm), ih h.2]
    rfl

theorem rs_noop (k : AKind) (ext : Str) (s : Str) (h : '!' ∉ s) :
    reSubMoment k ext s = s := by
  have := rs_pass k ext s [] h
  simpa [rs_nil] using this

theorem tryMoment_photo (u r : Str) (hu : u ≠ []) (hhex : ∀ c ∈ u, isHex c = true) :
    tryMoment AKind.photo (lit "[](dayone-moment:" ++ (lit "//" ++ (u ++ ')' :: r))) =
      some (u, ⟨r, by simp; omega⟩) := by
  simp only [tryMoment]
  rw [expectLit_append]
  simp only [kindPath]
  rw [expectLit_append]
  simp only []
  rw [hexClose_run u r hu hhex]

theorem tryMoment_pdf (u r : Str) (hu : u ≠ []) (hhex : ∀ c ∈ u, isHex c = true) :
    tryMoment AKind.pdf
        (lit "[](dayone-moment:" ++ (lit "//" ++ (lit "pdfAttachment/" ++ (u ++ ')' :: r)))) =
      some (u, ⟨r, by simp; omega⟩) := by
  simp only [tryMoment]
  rw [expectLit_append]
  simp only [kindPath]
  have hsp : spanSub (fun c => c = '/')
      (lit "//" ++ (lit "pdfAttachment/" ++ (u ++ ')' :: r))) =
      ('/' :: ['/'], ⟨lit "pdfAttachment/" ++ (u ++ ')' :: r), by simp⟩) :=
    spanSub_all _ (lit "//") 'p' (lit "dfAttachment/" ++ (u ++ ')' :: r)) (by decide) (by decide)
  rw [hsp]
  simp only []
  have hel : expectLit (lit "pdfAttachment" ++ lit "/")
      (lit "pdfAttachment/" ++ (u ++ ')' :: r)) = some ⟨u ++ ')' :: r, by simp⟩ :=
    expectLit_append (lit "pdfAttachment" ++ lit "/") (u ++ ')' :: r)
  rw [hel]
  simp only []
  rw [hexClose_run u r hu hhex]

theorem tryMoment_audio (u r : Str) (hu : u ≠ []) (hhex : ∀ c ∈ u, isHex c = true) :
    tryMoment AKind.audio
        (lit "[](dayone-moment:" ++ (lit "//" ++ (lit "audio/" ++ (u ++ ')' :: r)))) =
      some (u, ⟨r, by simp; omega⟩) := by
  simp only [tryMoment]
  rw [expectLit_append]
  simp only [kindPath]
  have hsp : spanSub (fun c => c = '/')
      (lit "//" ++ (lit "audio/" ++ (u ++ ')' :: r))) =
      ('/' :: ['/'], ⟨lit "audio/" ++ (u ++ ')' :: r), by simp⟩) :=
    spanSub_all _ (lit "//") 'a' (lit "udio/" ++ (u ++ ')' :: r)) (by decide) (by decide)
  rw [hsp]
  simp only []
  have hel : expectLit (lit "audio" ++ lit "/")
      (lit "audio/" ++ (u ++ ')' :: r)) = some ⟨u ++ ')' :: r, by simp⟩ :=
    expectLit_append (lit "audio" ++ lit "/") (u ++ ')' :: r)
  rw [hel]
  simp only []
  rw [hexClose_run u r hu hhex]

theorem tryMoment_video (u r : Str) (hu : u ≠ []) (hhex : ∀ c ∈ u, isHex c = true) :
    tryMoment AKind.video
        (lit "[](dayone-moment:" ++ (lit "//" ++ (lit "video/" ++ (u ++ ')' :: r)))) =
      some (u, ⟨r, by simp; omega⟩) := by
  simp only [tryMoment]
  rw [expectLit_append]
  simp only [kindPath]
  have hsp : spanSub (fun c => c = '/')
      (lit "//" ++ (lit "video/" ++ (u ++ ')' :: r))) =
      ('/' :: ['/'], ⟨lit "video/" ++ (u ++ ')' :: r), by simp⟩) :=
    spanSub_all _ (lit "//") 'v' (lit "ideo/" ++ (u ++ ')' :: r)) (by decide) (by decide)
  rw [hsp]
  simp only []
  have hel : expectLit (lit "video" ++ lit "/")
      (lit "video/" ++ (u ++ ')' :: r)) = some ⟨u ++ ')' :: r, by simp⟩ :=
    expectLit_append (lit "video" ++ lit "/") (u ++ ')' :: r)
  rw [hel]
  simp only []
  rw [hexClose_run u r hu hhex]

theorem tryMoment_open_brackets (k : AKind) (X : Str) :
    tryMoment k ('[' :: ('[' :: X)) = none := by
  simp only [tryMoment]
  have : expectLit (lit "[](dayone-moment:") ('[' :: ('[' :: X)) = none := by
    show expectLit ('[' :: (']' :: lit "(dayone-moment:")) ('[' :: ('[' :: X)) = none
    simp [expectLit]
  rw [this]

theorem hex_no_bang (u : Str) (hhex : ∀ c ∈ u, isHex c = true) : '!' ∉ u := by
  intro hin
  have := hhex '!' hin
  simp [isHex] at this

theorem rs_photo_step (ext u r : Str) (hu : u ≠ []) (hhex : ∀ c ∈ u, isHex c = true) :
    reSubMoment AKind.photo ext
        ('!' :: (lit "[](dayone-moment:" ++ (lit "//" ++ (u ++ ')' :: r)))) =
      momentRepl u ext ++ reSubMoment AKind.photo ext r := by
  rw [rs_bang, tryMoment_photo u r hu hhex]

theorem rs_photo_at (ext pre u r : Str) (hpre : '!' ∉ pre)
    (hu : u ≠ []) (hhex : ∀ c ∈ u, isHex c = true) :
    reSubMoment AKind.photo ext
        (pre ++ ('!' :: (lit "[](dayone-moment:" ++ (lit "//" ++ (u ++ ')' :: r))))) =
      pre ++ (momentRepl u ext ++ reSubMoment AKind.photo ext r) := by
  rw [rs_pass _ _ pre _ hpre, rs_photo_step ext u r hu hhex]

theorem rs_embed (k : AKind) (ext u t X : Str) (hu : '!' ∉ u) (ht : '!' ∉ t) :
    reSubMoment k ext (momentRepl u t ++ X) = momentRepl u t ++ reSubMoment k ext X := by
  simp only [momentRepl, List.append_assoc]
  show reSubMoment k ext
      ('!' :: ('[' :: ('[' :: (u ++ ('.' :: (t ++ (']' :: (']' :: X)))))))) =
    '!' :: ('[' :: ('[' :: (u ++ ('.' :: (t ++ (']' :: (']' :: reSubMoment k ext X)))))))
  rw [rs_bang, tryMoment_open_brackets]
  simp only []
  rw [rs_cons_ne _ _ '[' _ (by decide), rs_cons_ne _ _ '[' _ (by decide),
    rs_pass _ _ u _ hu, rs_cons_ne _ _ '.' _ (by decide),
    rs_pass _ _ t _ ht, rs_cons_ne _ _ ']' _ (by decide), rs_cons_ne _ _ ']' _ (by decide)]

theorem rs_photo_two (ext pre mid post uA uB : Str)
    (hpre : '!' ∉ pre) (hmid : '!' ∉ mid) (hpost : '!' ∉ post)
    (huA : uA ≠ []) (hhexA : ∀ c ∈ uA, isHex c = true)
    (huB : uB ≠ []) (hhexB : ∀ c ∈ uB, isHex c = true) :
    reSubMoment AKind.photo ext (pre ++ photoRef uA ++ mid ++ photoRef uB ++ post) =
      pre ++ momentRepl uA ext ++ mid ++ momentRepl uB ext ++ post := by
  simp only [photoRef, List.append_assoc]
  show reSubMoment AKind.photo ext
      (pre ++ ('!' :: (lit "[](dayone-moment:" ++ (lit "//" ++ (uA ++ ')' ::
        (mid ++ ('!' :: (lit "[](dayone-moment:" ++ (lit "//" ++ (uB ++ ')' :: post)))))))))) = _
  rw [rs_photo_at ext pre uA _ hpre huA hhexA, rs_pass _ _ mid _ hmid,
    rs_photo_step ext uB post huB hhexB, rs_noop _ _ post hpost]

theorem rs_embed_two_noop (k : AKind) (ext2 pre mid post uA uB T : Str)
    (hpre : '!' ∉ pre) (hmid : '!' ∉ mid) (hpost : '!' ∉ post)
    (hbA : '!' ∉ uA) (hbB : '!' ∉ uB) (hT : '!' ∉ T) :
    reSubMoment k ext2 (pre ++ momentRepl uA T ++ mid ++ momentRepl uB T ++ post) =
      pre ++ momentRepl uA T ++ mid ++ momentRepl uB T ++ post := by
  simp only [List.append_assoc]
  rw [rs_pass _ _ pre _ hpre, rs_embed _ _ uA T _ hbA hT, rs_pass _ _ mid _ hmid,
    rs_embed _ _ uB T _ hbB hT, rs_noop _ _ post hpost]

theorem applyPhotos_first_type (pre mid post uA uB idA idB mA mB T1 T2 : Str)
    (hpre : '!' ∉ pre) (hmid : '!' ∉ mid) (hpost : '!' ∉ post)
    (huA : uA ≠ []) (hhexA : ∀ c ∈ uA, isHex c = true)
    (huB : uB ≠ []) (hhexB : ∀ c ∈ uB, isHex c = true) (hT1 : '!' ∉ T1) :
    applyPhotos
        (some [⟨idA, mA, some T1⟩, ⟨idB, mB, some T2⟩])
        (pre ++ photoRef uA ++ mid ++ photoRef uB ++ post) =
      pre ++ momentRepl uA T1 ++ mid ++ momentRepl uB T1 ++ post := by
  simp only [applyPhotos, List.foldl]
  rw [rs_photo_two T1 pre mid post uA uB hpre hmid hpost huA hhexA huB hhexB]
  have h2 := rs_embed_two_noop AKind.photo T2 pre mid post uA uB T1 hpre hmid hpost
    (hex_no_bang uA hhexA) (hex_no_bang uB hhexB) hT1
  simp only [List.append_assoc] at h2 ⊢
  exact h2

theorem rs_pdf_step (ext u r : Str) (hu : u ≠ []) (hhex : ∀ c ∈ u, isHex c = true) :
    reSubMoment AKind.pdf ext
        ('!' :: (lit "[](dayone-moment:" ++ (lit "//" ++ (lit "pdfAttachment/" ++ (u ++ ')' :: r))))) =
      momentRepl u ext ++ reSubMoment AKind.pdf ext r := by
  rw [rs_bang, tryMoment_pdf u r hu hhex]

theorem rs_audio_step (ext u r : Str) (hu : u ≠ []) (hhex : ∀ c ∈ u, isHex c = true) :
    reSubMoment AKind.audio ext
        ('!' :: (lit "[](dayone-moment:" ++ (lit "//" ++ (lit "audio/" ++ (u ++ ')' :: r))))) =
      momentRepl u ext ++ reSubMoment AKind.audio ext r := by
  rw [rs_bang, tryMoment_audio u r hu hhex]

theorem rs_video_step (ext u r : Str) (hu : u ≠ []) (hhex : ∀ c ∈ u, isHex c = true) :
    reSubMoment AKind.video ext
        ('!' :: (lit "[](dayone-moment:" ++ (lit "//" ++ (lit "video/" ++ (u ++ ')' :: r))))) =
      momentRepl u ext ++ reSubMoment AKind.video ext r := by
  rw [rs_bang, tryMoment_video u r hu hhex]

theorem applyPdfs_single (pre post u idP mP : Str)
    (hpre : '!' ∉ pre) (hpost : '!' ∉ post)
    (hu : u ≠ []) (hhex : ∀ c ∈ u, isHex c = true) :
    applyPdfs (some [⟨idP, mP⟩]) (pre ++ kindRef (lit "pdfAttachment") u ++ post) =
      pre ++ momentRepl u (lit "pdf") ++ post := by
  simp only [applyPdfs, List.foldl, kindRef, List.append_assoc]
  show reSubMoment AKind.pdf (lit "pdf")
      (pre ++ ('!' :: (lit "[](dayone-moment:" ++ (lit "//" ++ (lit "pdfAttachment/" ++ (u ++ ')' :: post)))))) = _
  rw [rs_pass _ _ pre _ hpre, rs_pdf_step _ u post hu hhex, rs_noop _ _ post hpost]

theorem applyAudios_single (pre post u idP mP : Str)
    (hpre : '!' ∉ pre) (hpost : '!' ∉ post)
    (hu : u ≠ []) (hhex : ∀ c ∈ u, isHex c = true) :
    applyAudios (some [⟨idP, mP⟩]) (pre ++ kindRef (lit "audio") u ++ post) =
      pre ++ momentRepl u (lit "m4a") ++ post := by
  simp only [applyAudios, List.foldl, kindRef, List.append_assoc]
  show reSubMoment AKind.audio (lit "m4a")
      (pre ++ ('!' :: (lit "[](dayone-moment:" ++ (lit "//" ++ (lit "audio/" ++ (u ++ ')' :: post)))))) = _
  rw [rs_pass _ _ pre _ hpre, rs_audio_step _ u post hu hhex, rs_noop _ _ post hpost]

theorem rs_video_two (ext pre mid post uA uB : Str)
    (hpre : '!' ∉ pre) (hmid : '!' ∉ mid) (hpost : '!' ∉ post)
    (huA : uA ≠ []) (hhexA : ∀ c ∈ uA, isHex c = true)
    (huB : uB ≠ []) (hhexB : ∀ c ∈ uB, isHex c = true) :
    reSubMoment AKind.video ext
        (pre ++ kindRef (lit "video") uA ++ mid ++ kindRef (lit "video") uB ++ post) =
      pre ++ momentRepl uA ext ++ mid ++ momentRepl uB ext ++ post := by
  simp only [kindRef, List.append_assoc]
  show reSubMoment AKind.video ext
      (pre ++ ('!' :: (lit "[](dayone-moment:" ++ (lit "//" ++ (lit "video/" ++ (uA ++ ')' ::
        (mid ++ ('!' :: (lit "[](dayone-moment:" ++ (lit "//" ++ (lit "video/" ++
          (uB ++ ')' :: post)))))))))))) = _
  rw [rs_pass _ _ pre _ hpre, rs_video_step ext uA _ huA hhexA, rs_pass _ _ mid _ hmid,
    rs_video_step ext uB post huB hhexB, rs_noop _ _ post hpost]

theorem applyVideos_first_type (pre mid post uA uB idA idB mA mB T1 T2 : Str)
    (hpre : '!' ∉ pre) (hmid : '!' ∉ mid) (hpost : '!' ∉ post)
    (huA : uA ≠ []) (hhexA : ∀ c ∈ uA, isHex c = true)
    (huB : uB ≠ []) (hhexB : ∀ c ∈ uB, isHex c = true) (hT1 : '!' ∉ T1) :
    applyVideos
        (some [⟨idA, mA, T1⟩, ⟨idB, mB, T2⟩])
        (pre ++ kindRef (lit "video") uA ++ mid ++ kindRef (lit "video") uB ++ post) =
      pre ++ momentRepl uA T1 ++ mid ++ momentRepl uB T1 ++ post := by
  simp only [applyVideos, List.foldl]
  rw [rs_video_two T1 pre mid post uA uB hpre hmid hpost huA hhexA huB hhexB]
  have h2 := rs_embed_two_noop AKind.video T2 pre mid post uA uB T1 hpre hmid hpost
    (hex_no_bang uA hhexA) (hex_no_bang uB hhexB) hT1
  simp only [List.append_assoc] at h2 ⊢
  exact h2

theorem lookup_single (d : Str) (E : Entry) : List.lookup d [(d, E)] = some E := by
  simp [List.lookup]

theorem placeStep_merge (sep : Str) (st : PlaceState) (q : PendingEntry) (prev : Entry)
    (h : List.lookup q.stem st.entries = some prev) :
    placeStep true sep st q =
      { entries := eraseKey q.stem st.entries ++
          [(q.stem, { q.entry with text := q.entry.text ++ nl2 ++ sep ++ nl2 ++
            (Entry.render { prev with metadata := eraseKey (lit "dates") prev.metadata }) })],
        merged := st.merged + 1 } := by
  simp [placeStep, h]

theorem placeMergeGo (sep : Str) (rest : List PendingEntry) (d : Str) :
    ∀ (E : Entry) (n : Nat), (∀ q ∈ rest, q.stem = d) →
    List.foldl (placeStep true sep) ⟨[(d, E)], n⟩ rest =
      ⟨[(d, List.foldl (mergeCombine sep) E rest)], n + rest.length⟩ := by
  induction rest with
  | nil => intro E n _; simp
  | cons q rs ih =>
    intro E n hq
    have hstem : q.stem = d := hq q (List.mem_cons_self q rs)
    simp only [List.foldl]
    have hstep : placeStep true sep ⟨[(d, E)], n⟩ q = ⟨[(d, mergeCombine sep E q)], n + 1⟩ := by
      rw [placeStep_merge sep ⟨[(d, E)], n⟩ q E (by rw [hstem]; exact lookup_single d E)]
      simp only [eraseKey, hstem, mergeCombine]
      norm_num
    rw [hstep, ih (mergeCombine sep E q) (n + 1) (fun x hx => hq x (List.mem_cons_of_mem q hx))]
    have : n + 1 + rs.length = n + (rs.length + 1) := by omega
    rw [this]
    simp

theorem render_split (e : Entry) : ∃ pre, e.render = pre ++ (e.text ++ lit "\n") := by
  unfold Entry.render
  split
  · exact ⟨lit "---\n" ++
      joinSep (lit "\n") (e.metadata.map (fun kv => yamlKey kv.1 ++ lit ": " ++ yamlMVal kv.2)) ++
      lit "\n---\n\n", by simp [List.append_assoc]⟩
  · exact ⟨e.yaml ++
      joinSep (lit "\n") (e.metadata.map (fun kv => kv.1 ++ lit ":: " ++ showMVal kv.2) ++ [[], []]),
      by simp [List.append_assoc]⟩

theorem text_infix_render (e : Entry) : e.text <:+: e.render := by
  obtain ⟨pre, hp⟩ := render_split e
  rw [hp]
  exact ⟨pre, lit "\n", by simp⟩

theorem mergeCombine_text (sep : Str) (E : Entry) (q : PendingEntry) :
    (mergeCombine sep E q).text = q.entry.text ++ nl2 ++ sep ++ nl2 ++
      (Entry.render { E with metadata := eraseKey (lit "dates") E.metadata }) := rfl

theorem text_infix_mergeCombine (sep : Str) (E : Entry) (q : PendingEntry) :
    E.text <:+: (mergeCombine sep E q).text := by
  rw [mergeCombine_text]
  have h1 : E.text <:+:
      (Entry.render { E with metadata := eraseKey (lit "dates") E.metadata }) :=
    text_infix_render { E with metadata := eraseKey (lit "dates") E.metadata }
  obtain ⟨s, t, hst⟩ := h1
  exact ⟨q.entry.text ++ nl2 ++ sep ++ nl2 ++ s, t, by rw [← hst]; simp [List.append_assoc]⟩

theorem self_infix_mergeCombine (sep : Str) (E : Entry) (q : PendingEntry) :
    q.entry.text <:+: (mergeCombine sep E q).text := by
  rw [mergeCombine_text]
  exact ⟨[], nl2 ++ sep ++ nl2 ++
    (Entry.render { E with metadata := eraseKey (lit "dates") E.metadata }),
    by simp [List.append_assoc]⟩

theorem merge_fold_infix (sep : Str) : ∀ (rest : List PendingEntry) (E : Entry),
    E.text <:+: (List.foldl (mergeCombine sep) E rest).text ∧
    ∀ q ∈ rest, q.entry.text <:+: (List.foldl (mergeCombine sep) E rest).text := by
  intro rest
  induction rest with
  | nil => intro E; simp
  | cons q rs ih =>
    intro E
    simp only [List.foldl]
    obtain ⟨h1, h2⟩ := ih (mergeCombine sep E q)
    refine ⟨(text_infix_mergeCombine sep E q).trans h1, ?_⟩
    intro x hx
    rcases List.mem_cons.mp hx with hxq | hxrs
    · subst hxq
      exact (self_infix_mergeCombine sep E x).trans h1
    · exact h2 x hxrs

/-- C2: under merge-mode-on, a colliding entry absorbs the previous occupant:
the previous entry's `dates` attribute is deleted, the new body is placed
before the previous entry's full rendered text with the configured separator
between them, the new entry takes over the stem, the previous entry leaves
the entry set, and the merge counter increments; consequently a group of
same-date entries yields exactly one output file whose text nests all merged
bodies in reverse-processing order. -/
theorem merge_mode_one_file_per_date (sep d : Str) (p : PendingEntry)
    (rest : List PendingEntry) (hstem : ∀ q ∈ p :: rest, q.stem = d) :
    placeAll true sep (p :: rest) =
      ⟨[(d, List.foldl (mergeCombine sep) p.entry rest)], rest.length⟩ ∧
    (∀ q ∈ p :: rest, q.entry.text <:+: (List.foldl (mergeCombine sep) p.entry rest).text) ∧
    (∀ (st : PlaceState) (q : PendingEntry) (prev : Entry),
      List.lookup q.stem st.entries = some prev →
      placeStep true sep st q =
        { entries := eraseKey q.stem st.entries ++
            [(q.stem, { q.entry with text := q.entry.text ++ nl2 ++ sep ++ nl2 ++
              (Entry.render { prev with metadata := eraseKey (lit "dates") prev.metadata }) })],
          merged := st.merged + 1 }) := by
  refine ⟨?_, ?_, ?_⟩
  · have hp : p.stem = d := hstem p (List.mem_cons_self p rest)
    have h0 : placeStep true sep {} p = ⟨[(d, p.entry)], 0⟩ := by
      simp [placeStep, List.lookup, hp]
    show List.foldl (placeStep true sep) {} (p :: rest) = _
    simp only [List.foldl, h0]
    have := placeMergeGo sep rest d p.entry 0
      (fun x hx => hstem x (List.mem_cons_of_mem p hx))
    simpa using this
  · obtain ⟨h1, h2⟩ := merge_fold_infix sep rest p.entry
    intro q hq
    rcases List.mem_cons.mp hq with hqp | hqr
    · subst hqp; exact h1
    · exact h2 q hqr
  · intro st q prev h
    exact placeStep_merge sep st q prev h

/-- C2 witness: two same-day entries, merge-mode on, at a concrete input. -/
theorem merge_mode_one_file_per_date_witness :
    placeAll true (lit "S")
        (⟨lit "2023-01-01", { text := lit "b", metadata := [(lit "dates", MVal.s (lit "D"))] }⟩ ::
          [⟨lit "2023-01-01", { text := lit "c", metadata := [(lit "dates", MVal.s (lit "E"))] }⟩]) =
      ⟨[(lit "2023-01-01", List.foldl (mergeCombine (lit "S"))
          { text := lit "b", metadata := [(lit "dates", MVal.s (lit "D"))] }
          [⟨lit "2023-01-01", { text := lit "c", metadata := [(lit "dates", MVal.s (lit "E"))] }⟩])],
        1⟩ ∧
    (∀ q ∈ (⟨lit "2023-01-01", { text := lit "b", metadata := [(lit "dates", MVal.s (lit "D"))] }⟩ ::
          [⟨lit "2023-01-01", { text := lit "c", metadata := [(lit "dates", MVal.s (lit "E"))] }⟩] :
            List PendingEntry),
      q.entry.text <:+: (List.foldl (mergeCombine (lit "S"))
        { text := lit "b", metadata := [(lit "dates", MVal.s (lit "D"))] }
        [⟨lit "2023-01-01", { text := lit "c", metadata := [(lit "dates", MVal.s (lit "E"))] }⟩]).text) ∧
    (∀ (st : PlaceState) (q : PendingEntry) (prev : Entry),
      List.lookup q.stem st.entries = some prev →
      placeStep true (lit "S") st q =
        { entries := eraseKey q.stem st.entries ++
            [(q.stem, { q.entry with text := q.entry.text ++ nl2 ++ lit "S" ++ nl2 ++
              (Entry.render { prev with metadata := eraseKey (lit "dates") prev.metadata }) })],
          merged := st.merged + 1 }) :=
  merge_mode_one_file_per_date (lit "S") (lit "2023-01-01") _ _ (by decide)


theorem expectedNamesGo_snoc (s : Str) : ∀ (xs p : List Str),
    expectedNamesGo p (xs ++ [s]) =
      expectedNamesGo p xs ++ [s ++ suffixFor ((p ++ xs).count s)] := by
  intro xs
  induction xs with
  | nil => intro p; simp [expectedNamesGo]
  | cons x t ih =>
    intro p
    show expectedNamesGo p (x :: (t ++ [s])) = _
    simp only [expectedNamesGo]
    rw [ih (p ++ [x])]
    have h : (p ++ [x]) ++ t = p ++ (x :: t) := by simp
    rw [h, List.cons_append]

theorem expectedNamesGo_length : ∀ (xs p : List Str),
    (expectedNamesGo p xs).length = xs.length := by
  intro xs
  induction xs with
  | nil => intro p; simp [expectedNamesGo]
  | cons x t ih => intro p; simp [expectedNamesGo, ih]

theorem count_pos_mem (l : List Str) (s : Str) (h : 0 < l.count s) : s ∈ l := by
  exact List.count_pos_iff.mp h

theorem expectedNames_char (pref : List Str) : ∀ n,
    n ∈ expectedNames pref ↔ ∃ s, s ∈ pref ∧ ∃ k, k < pref.count s ∧ n = s ++ suffixFor k := by
  induction pref using List.reverseRecOn with
  | nil => intro n; simp [expectedNames, expectedNamesGo]
  | append_singleton xs s ih =>
    intro n
    rw [expectedNames, expectedNamesGo_snoc, List.mem_append]
    simp only [List.nil_append]
    rw [show (expectedNamesGo [] xs : List Str) = expectedNames xs from rfl, ih n]
    constructor
    · rintro (⟨s', hs', k, hk, rfl⟩ | hn)
      · refine ⟨s', List.mem_append_left _ hs', k, ?_, rfl⟩
        rw [List.count_append]
        omega
      · have : n = s ++ suffixFor (xs.count s) := by simpa using hn
        refine ⟨s, List.mem_append_right _ (by simp), xs.count s, ?_, this⟩
        rw [List.count_append]
        simp
    · rintro ⟨s', hs', k, hk, rfl⟩
      rw [List.count_append] at hk
      by_cases hss : s' = s
      · subst hss
        have h1 : (([s'] : List Str).count s') = 1 := by simp
        rw [h1] at hk
        rcases Nat.lt_or_ge k (xs.count s') with hlt | hge
        · exact Or.inl ⟨s', count_pos_mem xs s' (by omega), k, hlt, rfl⟩
        · have : k = xs.count s' := by omega
          subst this
          exact Or.inr (by simp)
      · have h0 : (([s] : List Str).count s') = 0 := by
          simp [List.count_cons, hss]
        rw [h0] at hk
        have : s' ∈ xs := by
          rcases List.mem_append.mp hs' with h | h
          · exact h
          · rw [List.mem_singleton] at h; exact absurd h hss
        exact Or.inl ⟨s', this, k, by omega, rfl⟩

theorem char_ofNat_toNat_valid (n : Nat) (h : n.isValidChar) : (Char.ofNat n).toNat = n := by
  simp only [Char.ofNat, h, dif_pos, Char.ofNatAux, Char.toNat]
  rfl

theorem char_ofNat_toNat_invalid (n : Nat) (h : ¬ n.isValidChar) : (Char.ofNat n).toNat = 0 := by
  simp only [Char.ofNat, h, dif_neg, Char.toNat]
  rfl

theorem chr_eq_small (j t : Nat) (ht1 : 97 ≤ t) (ht2 : t < 55296)
    (h : Char.ofNat j = Char.ofNat t) : j = t := by
  have htv : (Char.ofNat t).toNat = t := char_ofNat_toNat_valid t (Or.inl ht2)
  by_cases hv : j.isValidChar
  · have hjv := char_ofNat_toNat_valid j hv
    rw [h, htv] at hjv
    omega
  · have h0 := char_ofNat_toNat_invalid j hv
    rw [h, htv] at h0
    omega

theorem lookup_isSome_iff (l : List (Str × Entry)) (k : Str) :
    (List.lookup k l).isSome = true ↔ k ∈ l.map Prod.fst := by
  induction l with
  | nil =>
    rw [show List.lookup k ([] : List (Str × Entry)) = none from rfl]
    simp
  | cons a t ih =>
    obtain ⟨a1, a2⟩ := a
    rcases hbeq : k == a1 with _ | _
    · have hlk : List.lookup k ((a1, a2) :: t) = List.lookup k t := by
        simp [List.lookup, hbeq]
      have hk : ¬ k = a1 := by
        intro h
        rw [h] at hbeq
        simp at hbeq
      rw [hlk, ih]
      simp only [List.map_cons, List.mem_cons]
      constructor
      · exact Or.inr
      · rintro (h | h)
        · exact absurd h hk
        · exact h
    · have hlk : List.lookup k ((a1, a2) :: t) = some a2 := by
        simp [List.lookup, hbeq]
      have hk : k = a1 := by simpa using hbeq
      rw [hlk]
      simp only [Option.isSome_some, List.map_cons, List.mem_cons, true_iff]
      exact Or.inl hk

theorem findFree_eval (entries : List (Str × Entry)) (stem : Str) :
    ∀ (b : Nat) (fuel i : Nat),
      (∀ j, i ≤ j → ((List.lookup (stem ++ [Char.ofNat j]) entries).isSome = true ↔ j < i + b)) →
      b < fuel → findFree entries stem fuel i = i + b := by
  intro b
  induction b with
  | zero =>
    intro fuel i hchar hfuel
    cases fuel with
    | zero => omega
    | succ f =>
      have h0 : (List.lookup (stem ++ [Char.ofNat i]) entries).isSome = false := by
        have := hchar i (Nat.le_refl i)
        simp only [Nat.add_zero] at this
        rcases Bool.eq_false_or_eq_true ((List.lookup (stem ++ [Char.ofNat i]) entries).isSome)
          with h | h
        · exact absurd (this.mp h) (by omega)
        · exact h
      simp [findFree, h0]
  | succ b ih =>
    intro fuel i hchar hfuel
    cases fuel with
    | zero => omega
    | succ f =>
      have h1 : (List.lookup (stem ++ [Char.ofNat i]) entries).isSome = true :=
        (hchar i (Nat.le_refl i)).mpr (by omega)
      have hrec := ih f (i + 1)
        (fun j hj => by
          have := hchar j (by omega)
          constructor
          · intro hs; have := this.mp hs; omega
          · intro hlt; exact this.mpr (by omega))
        (by omega)
      simp only [findFree, h1, if_pos]
      rw [hrec]
      omega

theorem name_base_analysis (s s' : Str) (hL : s.length = s'.length) (k : Nat)
    (h : s = s' ++ suffixFor k) : k = 0 ∧ s = s' := by
  cases k with
  | zero => simp only [suffixFor, List.append_nil] at h; exact ⟨rfl, h⟩
  | succ k =>
    have := congrArg List.length h
    simp [suffixFor] at this
    omega

theorem name_suffix_analysis (s s' : Str) (hL : s.length = s'.length) (i k : Nat)
    (h : s ++ [Char.ofNat i] = s' ++ suffixFor k) :
    ∃ k', k = k' + 1 ∧ s = s' ∧ Char.ofNat i = Char.ofNat (97 + k') := by
  cases k with
  | zero =>
    simp only [suffixFor, List.append_nil] at h
    have := congrArg List.length h
    simp at this
    omega
  | succ k =>
    simp only [suffixFor] at h
    have hinj := List.append_inj h hL
    exact ⟨k, rfl, hinj.1, by simpa using hinj.2⟩

theorem placeAll_off_names (sep : Str) (ps : List PendingEntry) (L : Nat)
    (hlen : ∀ p ∈ ps, p.stem.length = L) (hb : ps.length ≤ 1000) :
    (placeAll false sep ps).entries.map Prod.fst = expectedNames (ps.map PendingEntry.stem) ∧
    ((placeAll false sep ps).entries.map Prod.fst).Nodup := by
  induction ps using List.reverseRecOn with
  | nil => simp [placeAll, expectedNames, expectedNamesGo]
  | append_singleton ps p ih =>
    obtain ⟨ihEq, ihNd⟩ := ih (fun q hq => hlen q (List.mem_append_left _ hq))
      (by simp at hb ⊢; omega)
    set st := placeAll false sep ps with hst
    have hfold : placeAll false sep (ps ++ [p]) = placeStep false sep st p := by
      simp only [placeAll, List.foldl_append, List.foldl]
      rfl
    have hkeyChar : ∀ n, n ∈ List.map Prod.fst st.entries ↔
        ∃ s, s ∈ List.map PendingEntry.stem ps ∧
          ∃ k, k < (List.map PendingEntry.stem ps).count s ∧ n = s ++ suffixFor k := by
      intro n
      rw [ihEq]
      exact expectedNames_char (List.map PendingEntry.stem ps) n
    have hLstem : p.stem.length = L := hlen p (List.mem_append_right _ (by simp))
    have hLstems : ∀ s ∈ List.map PendingEntry.stem ps, s.length = L := by
      intro s hs
      obtain ⟨q, hq, rfl⟩ := List.mem_map.mp hs
      exact hlen q (List.mem_append_left _ hq)
    have hlenEq : st.entries.length = (List.map PendingEntry.stem ps).length := by
      have h1 := congrArg List.length ihEq
      simp only [List.length_map] at h1
      rw [expectedNames, expectedNamesGo_length] at h1
      simpa using h1
    have hnew : (ps ++ [p]).map PendingEntry.stem =
        List.map PendingEntry.stem ps ++ [p.stem] := by simp
    have hExp : expectedNames (List.map PendingEntry.stem ps ++ [p.stem]) =
        expectedNames (List.map PendingEntry.stem ps) ++
          [p.stem ++ suffixFor ((List.map PendingEntry.stem ps).count p.stem)] := by
      rw [expectedNames, expectedNamesGo_snoc]
      rfl
    rcases Nat.eq_zero_or_pos ((List.map PendingEntry.stem ps).count p.stem) with hm | hm
    · have hnotkey : p.stem ∉ List.map Prod.fst st.entries := by
        rw [hkeyChar]
        rintro ⟨s', hs', k, hk, heq⟩
        obtain ⟨hk0, heqs⟩ := name_base_analysis p.stem s'
          (by rw [hLstem, hLstems s' hs']) k heq
        rw [← heqs] at hk
        omega
      have hlookup : List.lookup p.stem st.entries = none := by
        rcases hbe : List.lookup p.stem st.entries with _ | v
        · rfl
        · exfalso
          apply hnotkey
          rw [← lookup_isSome_iff]
          simp [hbe]
      have hstep : placeStep false sep st p =
          { entries := st.entries ++ [(p.stem, p.entry)], merged := st.merged } := by
        simp [placeStep, hlookup]
      constructor
      · rw [hfold, hstep]
        simp only [List.map_append, List.map_cons, List.map_nil]
        rw [hExp, ihEq, hm]
        simp [suffixFor]
      · rw [hfold, hstep]
        simp only [List.map_append, List.map_cons, List.map_nil]
        refine List.Nodup.append ihNd (List.nodup_singleton _) ?_
        intro a ha hbm
        rw [List.mem_singleton] at hbm
        subst hbm
        exact hnotkey ha
    · obtain ⟨m', hm'⟩ : ∃ m', (List.map PendingEntry.stem ps).count p.stem = m' + 1 :=
        ⟨(List.map PendingEntry.stem ps).count p.stem - 1, by omega⟩
      have hinkey : p.stem ∈ List.map Prod.fst st.entries := by
        rw [hkeyChar]
        exact ⟨p.stem, count_pos_mem _ p.stem hm, 0, by omega, by simp [suffixFor]⟩
      obtain ⟨prev, hprev⟩ : ∃ v, List.lookup p.stem st.entries = some v :=
        Option.isSome_iff_exists.mp ((lookup_isSome_iff st.entries p.stem).mpr hinkey)
      have hbound : (List.map PendingEntry.stem ps).length ≤ 1000 := by
        simp only [List.length_map]
        simp at hb
        omega
      have hcountle : (List.map PendingEntry.stem ps).count p.stem ≤
          (List.map PendingEntry.stem ps).length := List.count_le_length _ _
      have hchar2 : ∀ j, 97 ≤ j →
          ((List.lookup (p.stem ++ [Char.ofNat j]) st.entries).isSome = true ↔
            j < 97 + m') := by
        intro j hj
        rw [lookup_isSome_iff, hkeyChar]
        constructor
        · rintro ⟨s', hs', k, hk, heq⟩
          obtain ⟨k', hkk, hss, hchr⟩ := name_suffix_analysis p.stem s'
            (by rw [hLstem, hLstems s' hs']) j k heq
          subst hkk
          rw [← hss] at hk
          have hj2 : j = 97 + k' := chr_eq_small j (97 + k') (by omega) (by omega) hchr
          omega
        · intro hlt
          refine ⟨p.stem, count_pos_mem _ p.stem hm, (j - 97) + 1, by omega, ?_⟩
          simp only [suffixFor]
          have hjj : 97 + (j - 97) = j := by omega
          rw [hjj]
      have hff : findFree st.entries p.stem (st.entries.length + 1) 97 = 97 + m' := by
        apply findFree_eval st.entries p.stem m' (st.entries.length + 1) 97
        · intro j hj
          exact hchar2 j hj
        · rw [hlenEq]
          omega
      have hstep : placeStep false sep st p =
          { entries := st.entries ++ [(p.stem ++ [Char.ofNat (97 + m')], p.entry)],
            merged := st.merged } := by
        simp [placeStep, hprev, hff]
      have hname : p.stem ++ [Char.ofNat (97 + m')] =
          p.stem ++ suffixFor ((List.map PendingEntry.stem ps).count p.stem) := by
        rw [hm']
        rfl
      have hnotkey : p.stem ++ [Char.ofNat (97 + m')] ∉ List.map Prod.fst st.entries := by
        intro hmem
        have h1 := (lookup_isSome_iff st.entries _).mpr hmem
        have h2 := (hchar2 (97 + m') (by omega)).mp h1
        omega
      constructor
      · rw [hfold, hstep]
        simp only [List.map_append, List.map_cons, List.map_nil]
        rw [hExp, ihEq, hname]
      · rw [hfold, hstep]
        simp only [List.map_append, List.map_cons, List.map_nil]
        refine List.Nodup.append ihNd (List.nodup_singleton _) ?_
        intro a ha hbm
        rw [List.mem_singleton] at hbm
        subst hbm
        exact hnotkey ha

/-- C3: under merge-mode-off the collision resolver assigns, within one
journal, pairwise distinct output names: every entry's name is its date stem
extended with the suffix for the number of prior same-stem entries — the
sequence none, `a`, `b`, `c`, … in ascending order matching source order —
and both the stems and the derived `.md` filenames are pairwise distinct.
(The hypotheses hold for real inputs: date stems all have length 10, and the
1000-entry bound keeps the modelled `chr` in the injective range.) -/
theorem collision_suffix_order (sep : Str) (ps : List PendingEntry) (L : Nat)
    (hlen : ∀ p ∈ ps, p.stem.length = L) (hb : ps.length ≤ 1000) :
    (placeAll false sep ps).entries.map Prod.fst = expectedNames (ps.map PendingEntry.stem) ∧
    ((placeAll false sep ps).entries.map Prod.fst).Nodup ∧
    ((placeAll false sep ps).entries.map (fun kv => kv.1 ++ lit ".md")).Nodup := by
  obtain ⟨h1, h2⟩ := placeAll_off_names sep ps L hlen hb
  refine ⟨h1, h2, ?_⟩
  have hmm : (placeAll false sep ps).entries.map (fun kv => kv.1 ++ lit ".md") =
      ((placeAll false sep ps).entries.map Prod.fst).map (fun s => s ++ lit ".md") := by
    rw [List.map_map]
    rfl
  rw [hmm]
  refine h2.map ?_
  intro a b hab
  exact List.append_cancel_right hab

/-- C3 witness: four entries with stems d, d, e, d receive the names
d, da, e, db, pairwise distinct. -/
theorem collision_suffix_order_witness :
    (placeAll false (lit "S")
        [⟨lit "d", {}⟩, ⟨lit "d", {}⟩, ⟨lit "e", {}⟩, ⟨lit "d", {}⟩]).entries.map Prod.fst =
      expectedNames (List.map PendingEntry.stem
        [⟨lit "d", {}⟩, ⟨lit "d", {}⟩, ⟨lit "e", {}⟩, ⟨lit "d", {}⟩]) ∧
    ((placeAll false (lit "S")
        [⟨lit "d", {}⟩, ⟨lit "d", {}⟩, ⟨lit "e", {}⟩, ⟨lit "d", {}⟩]).entries.map Prod.fst).Nodup ∧
    ((placeAll false (lit "S")
        [⟨lit "d", {}⟩, ⟨lit "d", {}⟩, ⟨lit "e", {}⟩, ⟨lit "d", {}⟩]).entries.map
          (fun kv => kv.1 ++ lit ".md")).Nodup :=
  collision_suffix_order (lit "S")
    [⟨lit "d", {}⟩, ⟨lit "d", {}⟩, ⟨lit "e", {}⟩, ⟨lit "d", {}⟩] 1 (by decide) (by decide)


/-- C7 amended: PDF references always receive `.pdf` and audio references
always `.m4a`; photo and video references are NOT rewritten with each
attachment's own recorded type — every photo reference receives the type of
the journal entry's first type-bearing photo record (and every video
reference the first video record's type), because each loop iteration
substitutes all references globally. -/
theorem attachment_rewrite_extensions
    (pre mid post uA uB idA idB mA mB T1 T2 : Str)
    (hpre : '!' ∉ pre) (hmid : '!' ∉ mid) (hpost : '!' ∉ post)
    (huA : uA ≠ []) (hhexA : ∀ c ∈ uA, isHex c = true)
    (huB : uB ≠ []) (hhexB : ∀ c ∈ uB, isHex c = true) (hT1 : '!' ∉ T1) :
    applyPhotos (some [⟨idA, mA, some T1⟩, ⟨idB, mB, some T2⟩])
        (pre ++ photoRef uA ++ mid ++ photoRef uB ++ post) =
      pre ++ momentRepl uA T1 ++ mid ++ momentRepl uB T1 ++ post ∧
    applyVideos (some [⟨idA, mA, T1⟩, ⟨idB, mB, T2⟩])
        (pre ++ kindRef (lit "video") uA ++ mid ++ kindRef (lit "video") uB ++ post) =
      pre ++ momentRepl uA T1 ++ mid ++ momentRepl uB T1 ++ post ∧
    applyPdfs (some [⟨idA, mA⟩]) (pre ++ kindRef (lit "pdfAttachment") uA ++ post) =
      pre ++ momentRepl uA (lit "pdf") ++ post ∧
    applyAudios (some [⟨idA, mA⟩]) (pre ++ kindRef (lit "audio") uA ++ post) =
      pre ++ momentRepl uA (lit "m4a") ++ post :=
  ⟨applyPhotos_first_type pre mid post uA uB idA idB mA mB T1 T2
      hpre hmid hpost huA hhexA huB hhexB hT1,
    applyVideos_first_type pre mid post uA uB idA idB mA mB T1 T2
      hpre hmid hpost huA hhexA huB hhexB hT1,
    applyPdfs_single pre post uA idA mA hpre hpost huA hhexA,
    applyAudios_single pre post uA idA mA hpre hpost huA hhexA⟩

/-- C7 counterexample: two photos whose recorded types differ (`jpeg` and
`png`); the rewrite gives both references the first photo's extension, so
the reference to the second photo does not get that photo's own type. -/
theorem attachment_rewrite_claim_false :
    applyPhotos
        (some [⟨lit "AAA1", lit "m1", some (lit "jpeg")⟩,
               ⟨lit "BBB2", lit "m2", some (lit "png")⟩])
        (photoRef (lit "AAA1") ++ lit " and " ++ photoRef (lit "BBB2") ++ lit " end") =
      lit "![[AAA1.jpeg]] and ![[BBB2.jpeg]] end" ∧
    lit "![[AAA1.jpeg]] and ![[BBB2.jpeg]] end" ≠
      lit "![[AAA1.jpeg]] and ![[BBB2.png]] end" := by
  constructor
  · have h := applyPhotos_first_type [] (lit " and ") (lit " end")
      (lit "AAA1") (lit "BBB2") (lit "AAA1") (lit "BBB2") (lit "m1") (lit "m2")
      (lit "jpeg") (lit "png")
      (by decide) (by decide) (by decide) (by decide) (by decide) (by decide)
      (by decide) (by decide)
    exact h.trans (by decide)
  · decide

/-- C7 witness: the amended behaviour at one concrete body per kind. -/
theorem attachment_rewrite_extensions_witness :
    applyPhotos (some [⟨lit "i1", lit "h1", some (lit "jpeg")⟩,
        ⟨lit "i2", lit "h2", some (lit "png")⟩])
        (lit "x " ++ photoRef (lit "A1") ++ lit " m " ++ photoRef (lit "B2") ++ lit " y") =
      lit "x " ++ momentRepl (lit "A1") (lit "jpeg") ++ lit " m " ++
        momentRepl (lit "B2") (lit "jpeg") ++ lit " y" ∧
    applyVideos (some [⟨lit "i1", lit "h1", lit "jpeg"⟩, ⟨lit "i2", lit "h2", lit "png"⟩])
        (lit "x " ++ kindRef (lit "video") (lit "A1") ++ lit " m " ++
          kindRef (lit "video") (lit "B2") ++ lit " y") =
      lit "x " ++ momentRepl (lit "A1") (lit "jpeg") ++ lit " m " ++
        momentRepl (lit "B2") (lit "jpeg") ++ lit " y" ∧
    applyPdfs (some [⟨lit "i1", lit "h1"⟩])
        (lit "x " ++ kindRef (lit "pdfAttachment") (lit "A1") ++ lit " y") =
      lit "x " ++ momentRepl (lit "A1") (lit "pdf") ++ lit " y" ∧
    applyAudios (some [⟨lit "i1", lit "h1"⟩])
        (lit "x " ++ kindRef (lit "audio") (lit "A1") ++ lit " y") =
      lit "x " ++ momentRepl (lit "A1") (lit "m4a") ++ lit " y" :=
  attachment_rewrite_extensions (lit "x ") (lit " m ") (lit " y")
    (lit "A1") (lit "B2") (lit "i1") (lit "i2") (lit "h1") (lit "h2")
    (lit "jpeg") (lit "png")
    (by decide) (by decide) (by decide) (by decide) (by decide) (by decide)
    (by decide) (by decide)

theorem omap_mem {α β : Type} (f : α → Option β) :
    ∀ (l : List α) (ys : List β), omap f l = some ys →
      ∀ x ∈ l, ∃ y, f x = some y ∧ y ∈ ys := by
  intro l
  induction l with
  | nil => intro ys h x hx; simp at hx
  | cons a tl ih =>
    intro ys h x hx
    simp only [omap] at h
    obtain ⟨y, hy, h2⟩ := Option.bind_eq_some.mp h
    obtain ⟨ys2, hys2, h3⟩ := Option.bind_eq_some.mp h2
    have hys : ys = y :: ys2 := (Option.some.inj h3).symm
    subst hys
    rcases List.mem_cons.mp hx with rfl | hxt
    · exact ⟨y, hy, List.mem_cons_self _ _⟩
    · obtain ⟨y2, hy2, hy2m⟩ := ih ys2 hys2 x hxt
      exact ⟨y2, hy2, List.mem_cons_of_mem _ hy2m⟩

theorem mem_pydedupGo : ∀ (l seen : List Str) (x : Str),
    x ∈ pydedupGo seen l ↔ (x ∈ l ∧ x ∉ seen) := by
  intro l
  induction l with
  | nil => intro seen x; simp [pydedupGo]
  | cons a tl ih =>
    intro seen x
    by_cases ha : a ∈ seen
    · simp only [pydedupGo, if_pos ha, ih, List.mem_cons]
      constructor
      · rintro ⟨hx, hs⟩; exact ⟨Or.inr hx, hs⟩
      · rintro ⟨hx | hx, hs⟩
        · subst hx; exact absurd ha hs
        · exact ⟨hx, hs⟩
    · simp only [pydedupGo, if_neg ha, List.mem_cons, ih, List.mem_cons]
      constructor
      · rintro (rfl | ⟨hx, hs⟩)
        · exact ⟨Or.inl rfl, ha⟩
        · push_neg at hs
          exact ⟨Or.inr hx, hs.2⟩
      · rintro ⟨hx | hx, hs⟩
        · exact Or.inl hx
        · by_cases hxa : x = a
          · exact Or.inl hxa
          · exact Or.inr ⟨hx, by push_neg; exact ⟨hxa, hs⟩⟩

theorem mem_pydedup (l : List Str) (x : Str) : x ∈ pydedup l ↔ x ∈ l := by
  simp [pydedup, mem_pydedupGo]

/-- C10: a tag in both the ignore set and the status set is still emitted
as a `#status/...` tag (the status intersection is taken against the full
entry tag set), while the ignore set only removes it from the regular-tag
source list. -/
theorem ignored_status_tag_still_emitted (jn : Option Str) (pfx : Str) (ig st : List Str)
    (extra : Option (List Str)) (tagsL loc : List Str) (starred : Bool)
    (l : List Str) (t : Str)
    (h : processTags jn pfx ig st extra (some tagsL) loc starred = some l)
    (ht : t ∈ tagsL) (hig : t ∈ ig) (hst : t ∈ st) :
    (∃ ct, capwords (lit "#status/" ++ t) = some ct ∧ ct ∈ l) ∧
    t ∉ ((pydedup tagsL).filter (fun x => decide (x ∉ ig))).filter
        (fun x => decide (x ∉ st)) := by
  refine ⟨?_, ?_⟩
  · rw [processTags] at h
    obtain ⟨jp, hjp, h⟩ := Option.bind_eq_some.mp h
    obtain ⟨rsp, hrsp, h⟩ := Option.bind_eq_some.mp h
    obtain ⟨pp, hpp, h⟩ := Option.bind_eq_some.mp h
    have hl : jp ++ rsp.1 ++ rsp.2 ++ pp ++
        (if starred then [lit "#⭐"] else []) ++ extra.getD [] = l := Option.some.inj h
    rw [entryTagParts] at hrsp
    obtain ⟨rp, hrp, hrsp⟩ := Option.bind_eq_some.mp hrsp
    obtain ⟨sp, hsp, hrsp⟩ := Option.bind_eq_some.mp hrsp
    have hrsp2 : rsp = (rp, sp) := (Option.some.inj hrsp).symm
    subst hrsp2
    have htS : t ∈ (pydedup tagsL).filter (fun x => decide (x ∈ st)) := by
      simp [List.mem_filter, mem_pydedup, ht, hst]
    obtain ⟨ct, hct, hctm⟩ := omap_mem _ _ sp hsp t htS
    refine ⟨ct, hct, ?_⟩
    rw [← hl]
    simp only [List.mem_append]
    exact Or.inl (Or.inl (Or.inl (Or.inr hctm)))
  · simp [List.mem_filter, hig]

/-- C10 witness: the tag Secret, both ignored and a status tag, still comes
out as a status tag. -/
theorem ignored_status_tag_still_emitted_witness :
    (∃ ct, capwords (lit "#status/" ++ lit "Secret") = some ct ∧
      ct ∈ [lit "#on/work", lit "#status/secret"]) ∧
    lit "Secret" ∉ ((pydedup [lit "Work", lit "Secret"]).filter
        (fun x => decide (x ∉ [lit "Secret"]))).filter
        (fun x => decide (x ∉ [lit "Secret"])) :=
  ignored_status_tag_still_emitted none (lit "#on/") [lit "Secret"] [lit "Secret"] none
    [lit "Work", lit "Secret"] [] false [lit "#on/work", lit "#status/secret"] (lit "Secret")
    (by decide) (by decide) (by decide) (by decide)

/-- C1 counterexample: for tags Work and Draft, empty ignore set, status set
Draft, prefix `#on/`, starred, no journal name, the tags attribute the code
produces is `#on/work, #status/draft, #⭐` — `capwords` lowercases every
character after the first of each space-delimited word, and the first
character here is `#` — not the claimed `#on/Work, #status/Draft, #⭐`. -/
theorem tags_example_claim_false :
    Option.bind
        (retrieve_metadata
          { uuid := some (lit "E1"), tags := some [lit "Work", lit "Draft"],
            starred := some true }
          ⟨2023, 1, 1, 0, 0, 0⟩ (lit "#on/") [] [lit "Draft"] none none)
        (fun md => List.lookup (lit "tags") md) =
      some (MVal.s (lit "#on/work, #status/draft, #⭐")) ∧
    MVal.s (lit "#on/work, #status/draft, #⭐") ≠
      MVal.s (lit "#on/Work, #status/Draft, #⭐") := by
  exact ⟨by decide, by decide⟩

/-- C1 amended: at the claimed input the tags attribute is exactly
`#on/work, #status/draft, #⭐`: each tag is prefixed, then every
space-delimited word has its first character uppercased and the rest
lowercased with spaces removed (the leading `#` is the first character, so
single-word tags come out lowercased); regular tags come first, then status
tags, then the star. -/
theorem tags_example_actual :
    Option.bind
        (retrieve_metadata
          { uuid := some (lit "E1"), tags := some [lit "Work", lit "Draft"],
            starred := some true }
          ⟨2023, 1, 1, 0, 0, 0⟩ (lit "#on/") [] [lit "Draft"] none none)
        (fun md => List.lookup (lit "tags") md) =
      some (MVal.s (lit "#on/work, #status/draft, #⭐")) := by
  decide

/-- C5 amended: a record missing the identifier or starred flag makes its
file's processing raise, and the uncaught exception ends the whole run: no
file after the failing one is processed. -/
theorem malformed_aborts_run (cfg : Config) (pre post : List (List RawEntry))
    (f : List RawEntry) (hf : processFile cfg f = none) :
    runAll cfg (pre ++ f :: post) = none := by
  induction pre with
  | nil =>
    show runAll cfg (f :: post) = none
    simp [runAll, hf]
  | cons g tl ih =>
    show runAll cfg (g :: (tl ++ f :: post)) = none
    simp only [runAll]
    cases hg : processFile cfg g
    · rfl
    · rw [ih]
      rfl

/-- C5 witness: a run with a malformed first file aborts with nothing. -/
theorem malformed_aborts_run_witness :
    runAll {} ([[{ uuid := some (lit "E"), starred := some false }]] ++
      [({ starred := some false } : RawEntry)] ::
        [[{ uuid := some (lit "F"), starred := some false }]]) = none :=
  malformed_aborts_run {} [[{ uuid := some (lit "E"), starred := some false }]]
    [[{ uuid := some (lit "F"), starred := some false }]]
    [{ starred := some false }] (by decide)

/-- C5 counterexample: with a malformed record in the first input file, the
whole run aborts and the second, well-formed file is never processed — even
though that file alone processes fine.  The claim's per-file fatality scope
does not hold: there is no handler around the per-file loop. -/
theorem malformed_scope_claim_false :
    runAll {} [[({ starred := some false } : RawEntry)],
        [{ uuid := some (lit "E"), starred := some false }]] = none ∧
    processFile {} [{ uuid := some (lit "E"), starred := some false }] ≠ none := by
  exact ⟨by decide, by decide⟩

theorem collapse_nil : collapseEmptyCode [] = [] := by
  rw [collapseEmptyCode.eq_def]

/-- C6: the sanitizer does not touch the Unicode paragraph separator U+2029 —
the code replaces U+1C6A instead (utils.py:271), so a body consisting of the
paragraph separator comes out unchanged rather than as a double newline. -/
theorem paragraph_separator_unchanged :
    tidyText [Char.ofNat 0x2029] = [Char.ofNat 0x2029] := by
  rw [tidyText]
  have h1 : replAll (Char.ofNat 0x200B) []
      (replAll (Char.ofNat 0x1C6A) (lit "\n\n")
        (replAll (Char.ofNat 0x2028) (lit "\n")
          (replAll '\\' [] [Char.ofNat 0x2029]))) = [Char.ofNat 0x2029] := by decide
  rw [h1, collapseEmptyCode.eq_def]
  show Char.ofNat 0x2029 :: collapseEmptyCode [] = _
  rw [collapse_nil]

/-- C8 amended: in both serialization modes the rendered entry is some
prefix followed by the body text and a final newline — it always ends with
a trailing newline, and nothing (in particular no identifier marker)
follows the body; the `uuid` keyword passed to the format call is unused. -/
theorem render_trailing_newline (e : Entry) :
    ∃ pre, e.render = pre ++ (e.text ++ lit "\n") :=
  render_split e

/-- C8 counterexample: a concrete rendered entry; everything after the body
is the single final newline, and the identifier appears nowhere in it, so
no trailing identifier marker exists. -/
theorem render_no_trailing_marker :
    Entry.render
        { Entry.from_metadata
            [(lit "uuid", MVal.s (lit "ABCDEF")),
             (lit "dates", MVal.s (lit "2023-01-01 00:00:00"))] false with
          text := lit "hi" } =
      lit "dates:: 2023-01-01 00:00:00\nurl:: [DayOne](dayone://view?entryId=ABCDEF)\n\nhi\n" ∧
    ¬ (lit "ABCDEF" <:+: lit "hi\n") := by
  exact ⟨by decide, by decide⟩

/-- C9 counterexample: an entry created 2023-01-01T00:30Z in a UTC-5 zone:
the directory components (from the creation instant as recorded) are
2023/2023-01, but the filename stem (from the local date) is 2022-12-31 —
the year and month components do not agree with the stem. -/
theorem path_components_mismatch :
    outputPathParts (lit "admin") (19358 * 86400 + 1800) (-18000) =
      [lit "admin", lit "2023", lit "2023-01", lit "2022-12-31.md"] ∧
    ¬ (lit "2023" <+: lit "2022-12-31.md") := by
  exact ⟨by decide, by decide⟩

/-- C9 amended: the output path has the shape
`journal/year/year-month/date.md` where the year and month directories come
from the creation timestamp as recorded and the stem from the entry's own
timezone; whenever the timezone conversion preserves the calendar year and
month, the directory components agree with the stem. -/
theorem path_shape_agreement (j : Str) (c o y : Int) (mo d : Nat)
    (y2 : Int) (mo2 d2 : Nat)
    (hc : civilFromDays (c.fdiv 86400) = (y, mo, d))
    (hl : civilFromDays ((c + o).fdiv 86400) = (y2, mo2, d2))
    (hy : y = y2) (hmo : mo = mo2) :
    outputPathParts j c o = [j, intStr y, intStr y ++ lit "-" ++ pad2 mo,
      (intStr y ++ lit "-" ++ pad2 mo ++ lit "-" ++ pad2 d2) ++ lit ".md"] := by
  subst hy
  subst hmo
  simp [outputPathParts, dtOfEpoch, dtDate, hc, hl]

/-- C9 witness: agreement at a concrete instant where the timezone shift
stays inside the month. -/
theorem path_shape_agreement_witness :
    outputPathParts (lit "j") 0 3600 = [lit "j", intStr 1970, intStr 1970 ++ lit "-" ++ pad2 1,
      (intStr 1970 ++ lit "-" ++ pad2 1 ++ lit "-" ++ pad2 1) ++ lit ".md"] :=
  path_shape_agreement (lit "j") 0 3600 1970 1 1 1970 1 1 (by decide) (by decide) rfl rfl

end DayOne
